import Mathlib

/-!
Verification development for the alx-polly polling application.

The server actions in app/lib/actions/poll-actions.ts and
lib/actions/analytics-actions.ts are shallowly embedded here.  JavaScript
strings are modelled as lists of characters (JStr); String.prototype.trim
is modelled with Char.isWhitespace and toLocaleLowerCase with the ASCII
Char.toLower (all inputs appearing in the specification are ASCII).
JavaScript numbers are modelled as rationals, which covers every finite
double; Number.isInteger corresponds to the denominator being 1.
-/

namespace Polly

abbrev JStr := List Char

/-- Model of JavaScript String.prototype.trim: drop whitespace from both
ends. -/
def jsTrim (s : JStr) : JStr :=
  ((s.dropWhile Char.isWhitespace).reverse.dropWhile Char.isWhitespace).reverse

/-- Model of toLocaleLowerCase (ASCII lowering). -/
def jsLower (s : JStr) : JStr := s.map Char.toLower

/--
Embedding of normalizeOptions (poll-actions.ts lines 25-39): the loop
carries the seen-key set and the result array; pushing the 10th survivor
breaks out of the loop.
-/
def normLoop : List JStr → List JStr → List JStr → List JStr
  | [], _seen, result => result
  | raw :: rest, seen, result =>
    let val := jsTrim raw
    if val = [] then normLoop rest seen result
    else
      let key := jsLower val
      if key ∈ seen then normLoop rest seen result
      else
        let result' := result ++ [val]
        if 10 ≤ result'.length then result'
        else normLoop rest (seen ++ [key]) result'

def normalizeOptions (options : List JStr) : List JStr :=
  normLoop options [] []

/-- Spec-side first-occurrence case-insensitive deduplication, carrying the
set of already-seen lowercased keys. -/
def dedupFrom (seen : List JStr) : List JStr → List JStr
  | [] => []
  | v :: rest =>
    if jsLower v ∈ seen then dedupFrom seen rest
    else v :: dedupFrom (seen ++ [jsLower v]) rest

/-- The Option Normalizer as the specification words it: trim each entry,
drop empties, keep first occurrences case-insensitively, take at most 10. -/
def specNormalize (xs : List JStr) : List JStr :=
  (dedupFrom [] (((xs.map jsTrim).filter (fun v => v ≠ [])))).take 10

/-! ### Identifier format check -/
def isHexDigit (c : Char) : Bool :=
  ('0' ≤ c && c ≤ '9') || ('a' ≤ c && c ≤ 'f') || ('A' ≤ c && c ≤ 'F')

/-- Consume exactly n hex digits. -/
def hexRun : Nat → List Char → Option (List Char)
  | 0, rest => some rest
  | n + 1, c :: rest => if isHexDigit c then hexRun n rest else none
  | _ + 1, [] => none

def expect (c : Char) : List Char → Option (List Char)
  | d :: rest => if d = c then some rest else none
  | [] => none

def expectIn (cs : List Char) : List Char → Option (List Char)
  | d :: rest => if d ∈ cs then some rest else none
  | [] => none

def variantChars : List Char := ['8', '9', 'a', 'b', 'A', 'B']

/--
Embedding of isUuid (poll-actions.ts line 19 and analytics-actions.ts
line 5): the anchored regex of eight hex digits, a dash, four hex digits,
a dash, a digit 1-5 and three hex digits, a dash, a variant character
8/9/a/b/A/B and three hex digits, a dash, and twelve hex digits.
-/
def isUuid (id : JStr) : Bool :=
  (Option.bind (hexRun 8 id) (fun r1 =>
   Option.bind (expect '-' r1) (fun r2 =>
   Option.bind (hexRun 4 r2) (fun r3 =>
   Option.bind (expect '-' r3) (fun r4 =>
   Option.bind (expectIn ['1', '2', '3', '4', '5'] r4) (fun r5 =>
   Option.bind (hexRun 3 r5) (fun r6 =>
   Option.bind (expect '-' r6) (fun r7 =>
   Option.bind (expectIn variantChars r7) (fun r8 =>
   Option.bind (hexRun 3 r8) (fun r9 =>
   Option.bind (expect '-' r9) (fun r10 =>
   Option.bind (hexRun 12 r10) (fun r11 =>
   if r11 = [] then some () else none)))))))))))).isSome

/-- The shape the specification describes, with the set of admissible
version characters as a parameter: hyphen-separated hex groups of sizes
8, 4, 4, 4 and 12, the third group starting with a version character and
the fourth with a variant character. -/
def UuidShapeWith (vs : List Char) (s : JStr) : Prop :=
  ∃ g1 g2 g3 g4 g5 v w,
    s = g1 ++ '-' :: (g2 ++ '-' :: (v :: g3 ++ '-' :: (w :: g4 ++ '-' :: g5))) ∧
    g1.length = 8 ∧ g2.length = 4 ∧ g3.length = 3 ∧ g4.length = 3 ∧
    g5.length = 12 ∧ g1.all isHexDigit ∧ g2.all isHexDigit ∧
    g3.all isHexDigit ∧ g4.all isHexDigit ∧ g5.all isHexDigit ∧
    v ∈ vs ∧ w ∈ variantChars

/-! ### Poll schema (zod PollSchema, poll-actions.ts lines 11-17) -/
/--
A raw form value for a scheduled date field.  FormData.get yields null
when the field is absent and a string otherwise; the JavaScript Date
parser is external to this repository, so a string is carried together
with the outcome of parsing it (none models an Invalid Date).
-/
inductive DateField where
  | null
  | str (parsed : Option Int)

/-- z.coerce.date().optional() applied to a FormData value: null coerces
to the epoch date, a parseable string to its date, an unparseable string
fails validation. -/
def coerceDateField : DateField → Option (Option Int)
  | .null => some (some 0)
  | .str (some t) => some (some t)
  | .str none => none

/-- PollOptionSchema: trim, then require 1 to 100 characters; the parsed
value is the trimmed string. -/
def parseOption (o : JStr) : Option JStr :=
  let t := jsTrim o
  if 1 ≤ t.length ∧ t.length ≤ 100 then some t else none

structure ParsedPoll where
  question : JStr
  options : List JStr
  scheduled_open_time : Option Int
  scheduled_close_time : Option Int

/-- z.array(PollOptionSchema): parse each element, failing if any element
fails. -/
def parseOptions : List JStr → Option (List JStr)
  | [] => some []
  | o :: rest =>
    match parseOption o, parseOptions rest with
    | some t, some ts => some (t :: ts)
    | some _, none => none
    | none, _ => none

/-- PollSchema.safeParse: question trimmed to 1-200 characters, 2 to 10
options each passing PollOptionSchema, both date fields coercible. -/
def pollSchemaParse (q : JStr) (opts : List JStr) (d1 d2 : DateField) :
    Option ParsedPoll :=
  let tq := jsTrim q
  if 1 ≤ tq.length ∧ tq.length ≤ 200 then
    match parseOptions opts with
    | some topts =>
      if 2 ≤ opts.length ∧ opts.length ≤ 10 then
        match coerceDateField d1, coerceDateField d2 with
        | some t1, some t2 => some ⟨tq, topts, t1, t2⟩
        | some _, none => none
        | none, _ => none
      else none
    | none => none
  else none

/-! ### Analytics reducer (analytics-actions.ts lines 203-247) -/
/-- A poll row as the per-poll analytics query returns it: the options
column may fail Array.isArray, which the reducer maps to the empty list.
The voting-timeline output of processPollAnalytics is day-bucketed from
creation timestamps; no claim concerns it and it is not modelled. -/
structure PollIn where
  id : JStr
  question : JStr
  options : Option (List JStr)
  created_at : Int

structure VoteIn where
  option_index : ℚ
  created_at : Int
  user_id : JStr

structure OptionResult where
  option : JStr
  votes : Nat
  percentage : Int
deriving DecidableEq

structure AnalyticsSummary where
  totalVotes : Nat
  uniqueVoters : Nat
  optionsCount : Nat
deriving DecidableEq

structure PollAnalytics where
  summary : AnalyticsSummary
  optionResults : List OptionResult
deriving DecidableEq

/-- Math.round: half-up rounding. -/
def jsRound (q : ℚ) : Int := ⌊q + 1 / 2⌋

/-- The reduce building Record(number, number) of per-option counts. -/
def countsFold (votes : List VoteIn) : ℚ → Nat :=
  votes.foldl (fun acc v k => if k = v.option_index then acc k + 1 else acc k)
    (fun _ => 0)

/-- The Set-based unique-voter count. -/
def jsSetSize (l : List JStr) : Nat :=
  (l.foldl (fun s u => if u ∈ s then s else s ++ [u]) []).length

def processPollAnalytics (poll : PollIn) (votes : List VoteIn) :
    PollAnalytics :=
  let options := poll.options.getD []
  let totalVotes := votes.length
  let optionCounts := countsFold votes
  let optionResults := options.enum.map (fun io =>
    { option := io.2
      votes := optionCounts io.1
      percentage :=
        if 0 < totalVotes then
          jsRound ((optionCounts io.1 : ℚ) / totalVotes * 100)
        else 0 : OptionResult })
  let uniqueVoters := jsSetSize (votes.map (fun v => v.user_id))
  { summary := ⟨totalVotes, uniqueVoters, options.length⟩
    optionResults := optionResults }

/-! ### The persistent store and the server actions

The external relational store is modelled explicitly: the polls, options
and votes tables are row lists, and an operation returns its result, the
store after the call, and the number of storage round-trips it made.
The ambient authenticated session (supabase.auth.getUser) is passed as an
explicit `Option` user id, following the design note of the spec.
-/
structure PollRow where
  id : JStr
  user_id : JStr
  question : JStr
  status : JStr
  scheduled_open_time : Option Int
  scheduled_close_time : Option Int
  created_at : Nat
deriving DecidableEq

structure OptionRow where
  poll_id : JStr
  text : JStr
deriving DecidableEq

structure VoteRow where
  poll_id : JStr
  user_id : JStr
  option_index : ℚ
deriving DecidableEq

structure Store where
  polls : List PollRow
  options : List OptionRow
  votes : List VoteRow
  seq : Nat
deriving DecidableEq

/-- Result of a mutating operation: the {error: string|null} payload, the
store afterwards, and the number of storage round-trips performed. -/
structure OpOut (α : Type) where
  res : α
  store : Store
  trips : Nat
deriving DecidableEq

/-- Result of a read-only operation. -/
structure ReadOut (α : Type) where
  val : Option α
  error : Option JStr
  trips : Nat

def loginToVoteMsg : JStr := "You must be logged in to vote.".toList

def invalidPollIdMsg : JStr := "Invalid poll id.".toList

def invalidOptionMsg : JStr := "Invalid option selected.".toList

def pollNotFoundMsg : JStr := "Poll not found.".toList

def alreadyVotedMsg : JStr := "You have already voted on this poll.".toList

def validationMsg : JStr :=
  "Please provide a valid question and at least two unique options (max 10).".toList

def loginToCreateMsg : JStr := "You must be logged in to create a poll.".toList

def loginToUpdateMsg : JStr := "You must be logged in to update a poll.".toList

def loginToPublishMsg : JStr := "You must be logged in to publish a poll.".toList

def notAuthMsg : JStr := "Not authenticated".toList

def invalidPollIDMsg : JStr := "Invalid poll ID".toList

def createFailedMsg : JStr := "Failed to create poll.".toList

def singleRowErrMsg : JStr := "single row expected".toList

def accessDeniedMsg : JStr := "Poll not found or access denied".toList

def draftStatus : JStr := "draft".toList

def openStatus : JStr := "open".toList

def closedStatus : JStr := "closed".toList

/-- Id generation of the backing store, modelled as a version-4-shaped
string derived from the insertion counter. -/
def hexDigitChar (n : Nat) : Char :=
  if n < 10 then Char.ofNat (48 + n) else Char.ofNat (87 + n)

def hexPad : Nat → Nat → List Char
  | 0, _ => []
  | w + 1, v => hexPad w (v / 16) ++ [hexDigitChar (v % 16)]

def freshId (n : Nat) : JStr := "00000000-0000-4000-8000-".toList ++ hexPad 12 n

/-- The .single() lookup by poll id with the joined option rows implied:
exactly one matching row is required. -/
def singlePoll (st : Store) (pid : JStr) : Option PollRow :=
  match st.polls.filter (fun p => p.id = pid) with
  | [p] => some p
  | _ => none

/-- The option rows the options(*) join attaches to a poll. -/
def pollOptions (st : Store) (pid : JStr) : List OptionRow :=
  st.options.filter (fun o => o.poll_id = pid)

/-- The select-order-by-created_at-descending-limit-1-single query createPoll
uses to recover the id of the poll it just inserted. -/
def latestPollId (polls : List PollRow) : Option JStr :=
  match polls with
  | [] => none
  | p :: rest =>
    some ((rest.foldl (fun best q =>
      if best.created_at < q.created_at then q else best) p).id)

/--
Embedding of submitVote (poll-actions.ts lines 165-210).  The option
index is a JavaScript number: a rational, with Number.isInteger meaning
denominator 1.
-/
def submitVote (st : Store) (user : Option JStr) (pollId : JStr)
    (optionIndex : ℚ) : OpOut (Option JStr) :=
  match user with
  | none => ⟨some loginToVoteMsg, st, 0⟩
  | some u =>
    if isUuid pollId = false then ⟨some invalidPollIdMsg, st, 0⟩
    else if optionIndex.den ≠ 1 ∨ optionIndex < 0 then
      ⟨some invalidOptionMsg, st, 0⟩
    else
      match singlePoll st pollId with
      | none => ⟨some pollNotFoundMsg, st, 1⟩
      | some _poll =>
        let optionsLen := (pollOptions st pollId).length
        if (optionsLen : ℚ) ≤ optionIndex then ⟨some invalidOptionMsg, st, 1⟩
        else
          let existingCount := st.votes.countP
            (fun v => v.poll_id == pollId && v.user_id == u)
          if 0 < existingCount then ⟨some alreadyVotedMsg, st, 2⟩
          else
            ⟨none,
              ⟨st.polls, st.options, st.votes ++ [⟨pollId, u, optionIndex⟩],
                st.seq⟩, 3⟩

structure FormPoll where
  question : JStr
  options : List JStr
  scheduled_open_time : DateField
  scheduled_close_time : DateField

/--
Embedding of createPoll (poll-actions.ts lines 48-106).  The inserted row
takes the next counter value as its creation timestamp and a fresh id;
its status column is not set by the insert.
Modelled from the spec: the stored default status of a newly inserted
poll is the draft state ("created by owner (status draft ...); transitions
draft to open via an explicit publish action"); the storage schema holding
the default is not part of src/.
-/
def createPoll (st : Store) (user : Option JStr) (fd : FormPoll) :
    OpOut (Option JStr) :=
  match pollSchemaParse fd.question (normalizeOptions fd.options)
      fd.scheduled_open_time fd.scheduled_close_time with
  | none => ⟨some validationMsg, st, 0⟩
  | some parsed =>
    match user with
    | none => ⟨some loginToCreateMsg, st, 0⟩
    | some u =>
      let newRow : PollRow :=
        ⟨freshId st.seq, u, parsed.question, draftStatus,
          parsed.scheduled_open_time, parsed.scheduled_close_time, st.seq⟩
      let polls1 := st.polls ++ [newRow]
      match latestPollId polls1 with
      | none => ⟨some createFailedMsg, ⟨polls1, st.options, st.votes, st.seq + 1⟩, 2⟩
      | some pollId =>
        ⟨none,
          ⟨polls1,
            st.options ++ parsed.options.map (fun t => ⟨pollId, t⟩),
            st.votes, st.seq + 1⟩, 3⟩

/--
Embedding of updatePoll (poll-actions.ts lines 246-309).  The polls update
is scoped by both id and user_id; the delete and insert on the options
table are scoped only by poll id, exactly as in the source.
-/
def updatePoll (st : Store) (user : Option JStr) (pollId : JStr)
    (fd : FormPoll) : OpOut (Option JStr) :=
  if isUuid pollId = false then ⟨some invalidPollIdMsg, st, 0⟩
  else
    match pollSchemaParse fd.question (normalizeOptions fd.options)
        fd.scheduled_open_time fd.scheduled_close_time with
    | none => ⟨some validationMsg, st, 0⟩
    | some parsed =>
      match user with
      | none => ⟨some loginToUpdateMsg, st, 0⟩
      | some u =>
        let polls1 := st.polls.map (fun p =>
          if p.id = pollId ∧ p.user_id = u then
            ⟨p.id, p.user_id, parsed.question, p.status,
              parsed.scheduled_open_time, parsed.scheduled_close_time,
              p.created_at⟩
          else p)
        let options1 := st.options.filter (fun o => ¬ o.poll_id = pollId)
        let options2 := options1 ++ parsed.options.map (fun t => ⟨pollId, t⟩)
        ⟨none, ⟨polls1, options2, st.votes, st.seq⟩, 3⟩

/--
Embedding of deletePoll (poll-actions.ts lines 218-238), the delete scoped
by id and user_id.
Modelled from the spec: deletion "cascades to dependent Options and Votes
at the storage layer (not application-level cascade)"; the storage schema
holding the cascade is not part of src/.
-/
def deletePoll (st : Store) (user : Option JStr) (id : JStr) :
    OpOut (Option JStr) :=
  if isUuid id = false then ⟨some invalidPollIdMsg, st, 0⟩
  else
    match user with
    | none => ⟨some notAuthMsg, st, 0⟩
    | some u =>
      let hit := st.polls.any (fun p => p.id = id ∧ p.user_id = u)
      let polls1 := st.polls.filter (fun p => ¬ (p.id = id ∧ p.user_id = u))
      let options1 :=
        if hit then st.options.filter (fun o => ¬ o.poll_id = id)
        else st.options
      let votes1 :=
        if hit then st.votes.filter (fun v => ¬ v.poll_id = id)
        else st.votes
      ⟨none, ⟨polls1, options1, votes1, st.seq⟩, 1⟩

/--
Embedding of publishPoll (poll-actions.ts lines 317-341): sets the status
column to open on the row matching both id and user_id, with no check of
the current status.
-/
def publishPoll (st : Store) (user : Option JStr) (pollId : JStr) :
    OpOut (Option JStr) :=
  if isUuid pollId = false then ⟨some invalidPollIdMsg, st, 0⟩
  else
    match user with
    | none => ⟨some loginToPublishMsg, st, 0⟩
    | some u =>
      ⟨none,
        ⟨st.polls.map (fun p =>
          if p.id = pollId ∧ p.user_id = u then
            ⟨p.id, p.user_id, p.question, openStatus, p.scheduled_open_time,
              p.scheduled_close_time, p.created_at⟩
          else p),
          st.options, st.votes, st.seq⟩, 1⟩

/-- Embedding of getPollById (poll-actions.ts lines 143-156); the message
of a failed .single() comes from the storage client. -/
def getPollById (st : Store) (id : JStr) : ReadOut PollRow :=
  if isUuid id = false then ⟨none, some invalidPollIdMsg, 0⟩
  else
    match singlePoll st id with
    | some p => ⟨some p, none, 1⟩
    | none => ⟨none, some singleRowErrMsg, 1⟩

/-- The polls-table row of the per-poll analytics select, whose options
column content depends on the storage schema that is not part of src/; it
is carried as data on the lookup. -/
def analyticsLookup (st : Store) (pid : JStr) (u : JStr)
    (optionsCol : Option (List JStr)) : Option PollIn :=
  match st.polls.filter (fun p => p.id = pid ∧ p.user_id = u) with
  | [p] => some ⟨p.id, p.question, optionsCol, (p.created_at : Int)⟩
  | _ => none

/-- The votes-table select of the analytics action; vote creation
timestamps are assigned by the storage layer outside src/ and feed only
the timeline output, which is not modelled, so they are read as 0 here. -/
def votesForPoll (st : Store) (pid : JStr) : List VoteIn :=
  (st.votes.filter (fun v => v.poll_id = pid)).map
    (fun v => ⟨v.option_index, 0, v.user_id⟩)

/-- Embedding of getPollAnalytics (analytics-actions.ts lines 49-82). -/
def getPollAnalytics (st : Store) (user : Option JStr) (pollId : JStr)
    (optionsCol : Option (List JStr)) : ReadOut PollAnalytics :=
  match user with
  | none => ⟨none, some notAuthMsg, 0⟩
  | some u =>
    if isUuid pollId = false then ⟨none, some invalidPollIDMsg, 0⟩
    else
      match analyticsLookup st pollId u optionsCol with
      | none => ⟨none, some accessDeniedMsg, 1⟩
      | some poll =>
        ⟨some (processPollAnalytics poll (votesForPoll st pollId)), none, 2⟩

/-! ### Reachable stores and status transitions -/
/-- One server action applied to the store, with arbitrary caller and
arguments. -/
inductive Step : Store → Store → Prop where
  | create (st : Store) (user : Option JStr) (fd : FormPoll) :
      Step st (createPoll st user fd).store
  | update (st : Store) (user : Option JStr) (pid : JStr) (fd : FormPoll) :
      Step st (updatePoll st user pid fd).store
  | del (st : Store) (user : Option JStr) (pid : JStr) :
      Step st (deletePoll st user pid).store
  | publish (st : Store) (user : Option JStr) (pid : JStr) :
      Step st (publishPoll st user pid).store
  | vote (st : Store) (user : Option JStr) (pid : JStr) (q : ℚ) :
      Step st (submitVote st user pid q).store

def initStore : Store := ⟨[], [], [], 0⟩

inductive Reach : Store → Prop where
  | init : Reach initStore
  | step {st st' : Store} : Reach st → Step st st' → Reach st'

/-- Creation timestamps are below the counter and pairwise distinct. -/
def Inv (st : Store) : Prop :=
  (∀ p ∈ st.polls, p.created_at < st.seq) ∧
    st.polls.Pairwise (fun a b => a.created_at ≠ b.created_at)

/-! ### The Poll Validator and option-set replacement -/
/-- The Poll Validator as createPoll and updatePoll run it: normalize the
raw options, then PollSchema.safeParse (poll-actions.ts lines 52-56 and
252-256). -/
def validatePoll (question : JStr) (options : List JStr)
    (d1 d2 : DateField) : Bool :=
  (pollSchemaParse question (normalizeOptions options) d1 d2).isSome

/-! ### Concrete fixtures for witnesses and counterexamples -/
def pidA : JStr := "00000000-0000-4000-8000-000000000000".toList

def pidB : JStr := "11111111-1111-4111-8111-111111111111".toList

def uuidV1 : JStr := "00000000-0000-1000-8000-000000000000".toList

def alice : JStr := "alice".toList

def bob : JStr := "bob".toList

def carol : JStr := "carol".toList

/-- A store holding one draft poll owned by alice with two options. -/
def stMain : Store :=
  ⟨[⟨pidA, alice, "Best color?".toList, draftStatus, none, none, 0⟩],
    [⟨pidA, "Red".toList⟩, ⟨pidA, "Blue".toList⟩], [], 1⟩

/-- The same store after carol voted for option 0. -/
def stVoted : Store :=
  ⟨stMain.polls, stMain.options, [⟨pidA, carol, 0⟩], stMain.seq⟩

def fdHijack : FormPoll :=
  ⟨"Hijacked?".toList, ["X".toList, "Y".toList], .null, .null⟩

def fdColors : FormPoll :=
  ⟨"Best color?".toList, ["Red".toList, "Blue".toList], .null, .null⟩

def examplePoll : PollIn :=
  ⟨pidA, "AB?".toList, some ["A".toList, "B".toList], 0⟩

/-- Three votes for option 0 and one for option 1, by four users. -/
def exampleVotes : List VoteIn :=
  [⟨0, 0, "u1".toList⟩, ⟨0, 0, "u2".toList⟩, ⟨0, 0, "u3".toList⟩,
    ⟨1, 0, "u4".toList⟩]

/-! ### Theorems -/

theorem normLoop_eq (xs : List JStr) : ∀ (seen result : List JStr),
    result.length < 10 →
    normLoop xs seen result =
      result ++ (dedupFrom seen ((xs.map jsTrim).filter (fun v => v ≠ []))).take
        (10 - result.length) := by
  induction xs with
  | nil => intro seen result _; simp [normLoop, dedupFrom]
  | cons raw rest ih =>
    intro seen result hlen
    by_cases hval : jsTrim raw = []
    · simp only [normLoop, hval, if_pos rfl, List.map_cons, List.filter_cons,
        hval]
      have : (jsTrim raw ≠ jsTrim raw) = False := by simp
      simp only [hval] at *
      rw [ih seen result hlen]
      simp
    · by_cases hseen : jsLower (jsTrim raw) ∈ seen
      · simp only [normLoop]
        rw [if_neg hval, if_pos hseen]
        rw [ih seen result hlen]
        simp only [List.map_cons, List.filter_cons]
        have hne : (decide (jsTrim raw ≠ [])) = true := by
          simp [hval]
        rw [hne]
        simp only [dedupFrom, if_pos hseen]
      · simp only [normLoop]
        rw [if_neg hval, if_neg hseen]
        simp only [List.map_cons, List.filter_cons]
        have hne : (decide (jsTrim raw ≠ [])) = true := by
          simp [hval]
        rw [hne]
        simp only [dedupFrom, if_neg hseen]
        by_cases hfull : 10 ≤ (result ++ [jsTrim raw]).length
        · rw [if_pos hfull]
          have h9 : result.length = 9 := by
            simp at hfull
            omega
          have h1 : 10 - result.length = 1 := by omega
          rw [h1]
          simp [List.take]
        · rw [if_neg hfull]
          have hlt : (result ++ [jsTrim raw]).length < 10 := by omega
          rw [ih (seen ++ [jsLower (jsTrim raw)]) (result ++ [jsTrim raw]) hlt]
          have harith : 10 - result.length = (10 - (result ++ [jsTrim raw]).length) + 1 := by
            simp at hlt ⊢
            omega
          rw [harith]
          simp [List.take_succ_cons]

/-- The loop agrees with the spec-side description. -/
theorem normalizeOptions_eq_spec (xs : List JStr) :
    normalizeOptions xs = specNormalize xs := by
  have h := normLoop_eq xs [] [] (by norm_num)
  simpa [normalizeOptions, specNormalize] using h

theorem dropWhile_head_false (p : Char → Bool) (l : List Char) (a : Char)
    (t : List Char) (h : l.dropWhile p = a :: t) : p a = false := by
  have hh := List.head?_dropWhile_not p l
  rw [h] at hh
  exact hh

theorem dropWhile_idem (p : Char → Bool) (l : List Char) :
    (l.dropWhile p).dropWhile p = l.dropWhile p := by
  cases hd : l.dropWhile p with
  | nil => simp
  | cons a t =>
    rw [List.dropWhile_cons, if_neg]
    simp [dropWhile_head_false p l a t hd]

theorem jsTrim_idem (s : JStr) : jsTrim (jsTrim s) = jsTrim s := by
  unfold jsTrim
  set ws := Char.isWhitespace with hws
  set A := s.dropWhile ws with hA
  set B := A.reverse.dropWhile ws with hB
  -- B is a suffix of A.reverse, so B.reverse ++ u.reverse = A for some u
  obtain ⟨u, hu⟩ : B <:+ A.reverse := by
    rw [hB]; exact List.dropWhile_suffix ws
  have hAr : A = B.reverse ++ u.reverse := by
    have := congrArg List.reverse hu
    simpa using this.symm
  have step1 : B.reverse.dropWhile ws = B.reverse := by
    cases hBr : B.reverse with
    | nil => simp
    | cons a t =>
      rw [List.dropWhile_cons, if_neg]
      have hAcons : A = a :: (t ++ u.reverse) := by
        rw [hAr, hBr]; simp
      have : ws a = false := dropWhile_head_false ws s a (t ++ u.reverse) (by
        rw [← hA, hAcons])
      simp [this]
  rw [step1]
  have step2 : B.reverse.reverse.dropWhile ws = B := by
    rw [List.reverse_reverse, hB, dropWhile_idem]
  rw [step2]

theorem mem_dedupFrom (seen : List JStr) (l : List JStr) (v : JStr)
    (h : v ∈ dedupFrom seen l) : v ∈ l := by
  induction l generalizing seen with
  | nil => simp [dedupFrom] at h
  | cons a t ih =>
    rw [dedupFrom] at h
    split at h
    · exact List.mem_cons_of_mem _ (ih _ h)
    · rcases List.mem_cons.mp h with h1 | h2
      · exact h1 ▸ List.mem_cons_self _ _
      · exact List.mem_cons_of_mem _ (ih _ h2)

/-- Every survivor of the Normalizer is nonempty and fixed by trimming. -/
theorem normalizeOptions_mem (xs : List JStr) (v : JStr)
    (h : v ∈ normalizeOptions xs) : v ≠ [] ∧ jsTrim v = v := by
  rw [normalizeOptions_eq_spec, specNormalize] at h
  have h2 := mem_dedupFrom _ _ _ (List.mem_of_mem_take h)
  have h3 := List.mem_filter.mp h2
  obtain ⟨raw, _hraw, hvr⟩ := List.mem_map.mp h3.1
  refine ⟨by simpa using h3.2, ?_⟩
  rw [← hvr, jsTrim_idem]

/-- Keys produced by dedupFrom avoid the seen set and are pairwise distinct. -/
theorem dedupFrom_pairwise (l : List JStr) : ∀ (seen : List JStr),
    (dedupFrom seen l).Pairwise (fun a b => jsLower a ≠ jsLower b) ∧
      ∀ v ∈ dedupFrom seen l, jsLower v ∉ seen := by
  induction l with
  | nil => intro seen; simp [dedupFrom]
  | cons a t ih =>
    intro seen
    rw [dedupFrom]
    split
    · exact ih seen
    · rename_i hnot
      obtain ⟨ihp, ihm⟩ := ih (seen ++ [jsLower a])
      constructor
      · refine List.Pairwise.cons ?_ ihp
        intro v hv heq
        have := ihm v hv
        simp [← heq] at this
      · intro v hv
        rcases List.mem_cons.mp hv with h1 | h2
        · rw [h1]; exact hnot
        · have := ihm v h2
          simp at this
          exact this.1

theorem dedupFrom_eq_self (l : List JStr) : ∀ (seen : List JStr),
    (∀ v ∈ l, jsLower v ∉ seen) →
    l.Pairwise (fun a b => jsLower a ≠ jsLower b) →
    dedupFrom seen l = l := by
  induction l with
  | nil => intro seen _ _; rfl
  | cons a t ih =>
    intro seen hm hp
    rw [dedupFrom, if_neg (hm a (List.mem_cons_self a t))]
    congr 1
    refine ih _ ?_ (List.Pairwise.of_cons hp)
    intro v hv
    simp only [List.mem_append, List.mem_singleton]
    push_neg
    refine ⟨hm v (List.mem_cons_of_mem _ hv), ?_⟩
    exact fun hc => (List.pairwise_cons.mp hp).1 v hv hc.symm

/-- The Option Normalizer is idempotent. -/
theorem normalizeOptions_idem (xs : List JStr) :
    normalizeOptions (normalizeOptions xs) = normalizeOptions xs := by
  rw [normalizeOptions_eq_spec (normalizeOptions xs)]
  set l := normalizeOptions xs with hl
  have hmem : ∀ v ∈ l, v ≠ [] ∧ jsTrim v = v := fun v hv =>
    normalizeOptions_mem xs v (hl ▸ hv)
  have hmap : l.map jsTrim = l := by
    have := List.map_congr_left (l := l) (f := jsTrim) (g := id)
      (fun a ha => (hmem a ha).2)
    simpa using this
  have hfilter : l.filter (fun v => v ≠ []) = l := by
    apply List.filter_eq_self.mpr
    intro a ha
    simp [(hmem a ha).1]
  have hpair : l.Pairwise (fun a b => jsLower a ≠ jsLower b) := by
    rw [hl, normalizeOptions_eq_spec, specNormalize]
    exact ((dedupFrom_pairwise _ []).1).sublist (List.take_sublist _ _)
  have hlen : l.length ≤ 10 := by
    rw [hl, normalizeOptions_eq_spec, specNormalize]
    exact List.length_take_le _ _
  rw [specNormalize, hmap, hfilter, dedupFrom_eq_self l [] (by simp) hpair,
    List.take_of_length_le hlen]

theorem hexRun_eq_some (n : Nat) : ∀ (xs r : List Char),
    hexRun n xs = some r ↔
      ∃ pre, xs = pre ++ r ∧ pre.length = n ∧ pre.all isHexDigit := by
  induction n with
  | zero =>
    intro xs r
    constructor
    · intro h
      rw [hexRun] at h
      exact ⟨[], by simpa using Option.some.inj h, rfl, rfl⟩
    · rintro ⟨pre, hx, hlen, _⟩
      rw [List.length_eq_zero.mp hlen] at hx
      rw [hexRun]
      exact congrArg some (by simpa using hx)
  | succ n ih =>
    intro xs r
    cases xs with
    | nil =>
      simp only [hexRun]
      constructor
      · intro h; cases h
      · rintro ⟨pre, hx, hlen, _⟩
        cases pre with
        | nil => simp at hlen
        | cons a t => simp at hx
    | cons c rest =>
      rw [hexRun]
      by_cases hc : isHexDigit c
      · rw [if_pos hc, ih rest r]
        constructor
        · rintro ⟨pre, hx, hlen, hhex⟩
          exact ⟨c :: pre, by simp [hx], by simp [hlen], by simp [hc, hhex]⟩
        · rintro ⟨pre, hx, hlen, hhex⟩
          cases pre with
          | nil => simp at hlen
          | cons a t =>
            simp only [List.cons_append, List.cons.injEq] at hx
            refine ⟨t, hx.2, by simpa using hlen, ?_⟩
            simp only [List.all_cons, Bool.and_eq_true] at hhex
            exact hhex.2
      · rw [if_neg hc]
        constructor
        · intro h; cases h
        · rintro ⟨pre, hx, hlen, hhex⟩
          cases pre with
          | nil => simp at hlen
          | cons a t =>
            simp only [List.cons_append, List.cons.injEq] at hx
            simp only [List.all_cons, Bool.and_eq_true] at hhex
            rw [hx.1] at hc
            exact absurd hhex.1 hc

theorem expect_eq_some (c : Char) (xs r : List Char) :
    expect c xs = some r ↔ xs = c :: r := by
  cases xs with
  | nil => simp [expect]
  | cons d rest =>
    rw [expect]
    by_cases hd : d = c
    · simp [hd]
    · simp [if_neg hd, hd]

theorem expectIn_eq_some (cs : List Char) (xs r : List Char) :
    expectIn cs xs = some r ↔ ∃ c, xs = c :: r ∧ c ∈ cs := by
    cases xs with
    | nil => simp [expectIn]
    | cons d rest =>
      rw [expectIn]
      by_cases hd : d ∈ cs
      · rw [if_pos hd]
        constructor
        · intro h
          exact ⟨d, by simpa using congrArg (d :: ·) (Option.some.inj h), hd⟩
        · rintro ⟨c, hc, _⟩
          simp only [List.cons.injEq] at hc
          rw [hc.2]
      · rw [if_neg hd]
        constructor
        · intro h; cases h
        · rintro ⟨c, hc, hcs⟩
          simp only [List.cons.injEq] at hc
          exact absurd (hc.1 ▸ hcs) hd

/-- The regex accepts exactly the strings of UUID shape with a version
character from 1 to 5. -/
theorem isUuid_iff_shape (s : JStr) :
    isUuid s = true ↔ UuidShapeWith ['1', '2', '3', '4', '5'] s := by
  constructor
  · intro h
    rw [isUuid, Option.isSome_iff_exists] at h
    obtain ⟨u, h⟩ := h
    simp only [Option.bind_eq_some] at h
    obtain ⟨r1, h1, h⟩ := h
    obtain ⟨r2, h2, h⟩ := h
    obtain ⟨r3, h3, h⟩ := h
    obtain ⟨r4, h4, h⟩ := h
    obtain ⟨r5, h5, h⟩ := h
    obtain ⟨r6, h6, h⟩ := h
    obtain ⟨r7, h7, h⟩ := h
    obtain ⟨r8, h8, h⟩ := h
    obtain ⟨r9, h9, h⟩ := h
    obtain ⟨r10, h10, h⟩ := h
    obtain ⟨r11, h11, hend⟩ := h
    have hnil : r11 = [] := by
      by_contra hne
      rw [if_neg hne] at hend
      cases hend
    obtain ⟨g1, hx1, hl1, hh1⟩ := (hexRun_eq_some 8 s r1).mp h1
    have hx2 := (expect_eq_some '-' r1 r2).mp h2
    obtain ⟨g2, hx3, hl2, hh2⟩ := (hexRun_eq_some 4 r2 r3).mp h3
    have hx4 := (expect_eq_some '-' r3 r4).mp h4
    obtain ⟨v, hx5, hv⟩ := (expectIn_eq_some _ r4 r5).mp h5
    obtain ⟨g3, hx6, hl3, hh3⟩ := (hexRun_eq_some 3 r5 r6).mp h6
    have hx7 := (expect_eq_some '-' r6 r7).mp h7
    obtain ⟨w, hx8, hw⟩ := (expectIn_eq_some _ r7 r8).mp h8
    obtain ⟨g4, hx9, hl4, hh4⟩ := (hexRun_eq_some 3 r8 r9).mp h9
    have hx10 := (expect_eq_some '-' r9 r10).mp h10
    obtain ⟨g5, hx11, hl5, hh5⟩ := (hexRun_eq_some 12 r10 r11).mp h11
    refine ⟨g1, g2, g3, g4, g5, v, w, ?_, hl1, hl2, hl3, hl4, hl5,
      hh1, hh2, hh3, hh4, hh5, hv, hw⟩
    rw [hx1, hx2, hx3, hx4, hx5, hx6, hx7, hx8, hx9, hx10, hx11, hnil]
    simp
  · rintro ⟨g1, g2, g3, g4, g5, v, w, hs, hl1, hl2, hl3, hl4, hl5,
      hh1, hh2, hh3, hh4, hh5, hv, hw⟩
    have run : ∀ (g r : List Char) (n : Nat), g.length = n → g.all isHexDigit →
        hexRun n (g ++ r) = some r := by
      intro g r n hlen hhex
      exact (hexRun_eq_some n (g ++ r) r).mpr ⟨g, rfl, hlen, hhex⟩
    rw [isUuid, hs]
    refine Option.isSome_iff_exists.mpr ⟨(), ?_⟩
    apply Option.bind_eq_some.mpr
    refine ⟨_, run g1 _ 8 hl1 hh1, ?_⟩
    apply Option.bind_eq_some.mpr
    refine ⟨_, (expect_eq_some _ _ _).mpr rfl, ?_⟩
    apply Option.bind_eq_some.mpr
    refine ⟨_, run g2 _ 4 hl2 hh2, ?_⟩
    apply Option.bind_eq_some.mpr
    refine ⟨_, (expect_eq_some _ _ _).mpr rfl, ?_⟩
    apply Option.bind_eq_some.mpr
    refine ⟨_, (expectIn_eq_some _ _ _).mpr ⟨v, rfl, hv⟩, ?_⟩
    apply Option.bind_eq_some.mpr
    refine ⟨_, run g3 _ 3 hl3 hh3, ?_⟩
    apply Option.bind_eq_some.mpr
    refine ⟨_, (expect_eq_some _ _ _).mpr rfl, ?_⟩
    apply Option.bind_eq_some.mpr
    refine ⟨_, (expectIn_eq_some _ _ _).mpr ⟨w, rfl, hw⟩, ?_⟩
    apply Option.bind_eq_some.mpr
    refine ⟨_, run g4 _ 3 hl4 hh4, ?_⟩
    apply Option.bind_eq_some.mpr
    refine ⟨_, (expect_eq_some _ _ _).mpr rfl, ?_⟩
    apply Option.bind_eq_some.mpr
    refine ⟨[], ?_, by simp⟩
    have h12 := run g5 [] 12 hl5 hh5
    rw [List.append_nil] at h12
    exact h12

theorem parseOptions_isSome (opts : List JStr) :
    (parseOptions opts).isSome = true ↔
      ∀ o ∈ opts, (parseOption o).isSome = true := by
  induction opts with
  | nil => simp [parseOptions]
  | cons a t ih =>
    rw [parseOptions]
    cases hp : parseOption a with
    | none => simp [hp]
    | some v =>
      cases hm : parseOptions t with
      | none =>
        rw [hm] at ih
        simp only [Option.isSome_none, Bool.false_eq_true, false_iff,
          not_forall] at ih
        simp only [Option.isSome_none, Bool.false_eq_true, false_iff,
          not_forall]
        obtain ⟨o, ho, hno⟩ := ih
        exact ⟨o, List.mem_cons_of_mem _ ho, hno⟩
      | some vs =>
        rw [hm] at ih
        simp only [Option.isSome_some, true_iff] at ih
        simp only [Option.isSome_some, true_iff]
        intro o ho
        rcases List.mem_cons.mp ho with h1 | h2
        · rw [h1, hp]; rfl
        · exact ih o h2

theorem parseOptions_some (opts : List JStr) : ∀ (res : List JStr),
    parseOptions opts = some res → res = opts.map jsTrim := by
  induction opts with
  | nil => intro res h; rw [parseOptions] at h; simp [(Option.some.inj h).symm]
  | cons a t ih =>
    intro res h
    rw [parseOptions] at h
    cases hp : parseOption a with
    | none => rw [hp] at h; cases h
    | some v =>
      rw [hp] at h
      cases hm : parseOptions t with
      | none => rw [hm] at h; cases h
      | some vs =>
        rw [hm] at h
        have hv : v = jsTrim a := by
          rw [parseOption] at hp
          split at hp
          · exact (Option.some.inj hp).symm
          · cases hp
        rw [← Option.some.inj h, List.map_cons, hv, ih vs hm]

theorem countsFold_eq_countP (votes : List VoteIn) (k : ℚ) :
    countsFold votes k = votes.countP (fun v => v.option_index == k) := by
  rw [countsFold]
  have gen : ∀ (l : List VoteIn) (f : ℚ → Nat),
      l.foldl (fun acc v j => if j = v.option_index then acc j + 1 else acc j) f k
        = f k + l.countP (fun v => v.option_index == k) := by
    intro l
    induction l with
    | nil => intro f; simp
    | cons a t ih =>
      intro f
      rw [List.foldl_cons, ih, List.countP_cons]
      by_cases hk : k = a.option_index
      · simp [hk]
        omega
      · have : (a.option_index == k) = false := by
          simp [BEq.beq]
          exact fun hc => hk hc.symm
        simp [if_neg hk, this]
  rw [gen votes (fun _ => 0)]
  simp

theorem jsSetSize_eq_card (l : List JStr) :
    jsSetSize l = l.toFinset.card := by
  rw [jsSetSize]
  have gen : ∀ (l acc : List JStr), acc.Nodup →
      (l.foldl (fun s u => if u ∈ s then s else s ++ [u]) acc).Nodup ∧
      (l.foldl (fun s u => if u ∈ s then s else s ++ [u]) acc).toFinset
        = acc.toFinset ∪ l.toFinset := by
    intro l
    induction l with
    | nil => intro acc h; simp [h]
    | cons a t ih =>
      intro acc hnd
      rw [List.foldl_cons]
      by_cases ha : a ∈ acc
      · obtain ⟨h1, h2⟩ := ih acc hnd
        rw [if_pos ha]
        refine ⟨h1, ?_⟩
        rw [h2]
        have : a ∈ acc.toFinset := List.mem_toFinset.mpr ha
        ext x
        simp only [Finset.mem_union, List.mem_toFinset, List.toFinset_cons,
          Finset.mem_insert]
        constructor
        · rintro (h | h)
          · exact Or.inl h
          · exact Or.inr (Or.inr h)
        · rintro (h | h | h)
          · exact Or.inl h
          · exact Or.inl (h ▸ ha)
          · exact Or.inr h
      · have hnd2 : (acc ++ [a]).Nodup := by
          simp [List.nodup_append, hnd, ha]
        obtain ⟨h1, h2⟩ := ih (acc ++ [a]) hnd2
        rw [if_neg ha]
        refine ⟨h1, ?_⟩
        rw [h2]
        ext x
        simp only [Finset.mem_union, List.mem_toFinset, List.mem_append,
          List.mem_singleton, List.toFinset_cons, Finset.mem_insert]
        tauto
  obtain ⟨h1, h2⟩ := gen l [] List.nodup_nil
  rw [← List.toFinset_card_of_nodup h1, h2]
  simp

/-! ### Facts about the schema parse -/
theorem pollSchemaParse_some (q : JStr) (opts : List JStr) (d1 d2 : DateField)
    (parsed : ParsedPoll)
    (h : pollSchemaParse q opts d1 d2 = some parsed) :
    parsed.question = jsTrim q ∧ parsed.options = opts.map jsTrim ∧
      2 ≤ opts.length ∧ opts.length ≤ 10 := by
  rw [pollSchemaParse] at h
  by_cases hq : 1 ≤ (jsTrim q).length ∧ (jsTrim q).length ≤ 200
  · rw [if_pos hq] at h
    cases hpo : parseOptions opts with
    | none => rw [hpo] at h; cases h
    | some topts =>
      rw [hpo] at h
      dsimp only at h
      by_cases hcount : 2 ≤ opts.length ∧ opts.length ≤ 10
      · rw [if_pos hcount] at h
        cases hd1 : coerceDateField d1 with
        | none => rw [hd1] at h; dsimp only at h; cases h
        | some t1 =>
          cases hd2 : coerceDateField d2 with
          | none => rw [hd1, hd2] at h; dsimp only at h; cases h
          | some t2 =>
            rw [hd1, hd2] at h
            dsimp only at h
            have := Option.some.inj h
            rw [← this]
            exact ⟨rfl, parseOptions_some opts topts hpo, hcount.1, hcount.2⟩
      · rw [if_neg hcount] at h; cases h
  · rw [if_neg hq] at h; cases h

theorem pollSchemaParse_isSome_iff (q : JStr) (opts : List JStr)
    (d1 d2 : DateField) :
    (pollSchemaParse q opts d1 d2).isSome = true ↔
      (1 ≤ (jsTrim q).length ∧ (jsTrim q).length ≤ 200) ∧
      (∀ o ∈ opts, 1 ≤ (jsTrim o).length ∧ (jsTrim o).length ≤ 100) ∧
      (2 ≤ opts.length ∧ opts.length ≤ 10) ∧
      (coerceDateField d1).isSome = true ∧
      (coerceDateField d2).isSome = true := by
  have hOptIff : ∀ o : JStr, (parseOption o).isSome = true ↔
      (1 ≤ (jsTrim o).length ∧ (jsTrim o).length ≤ 100) := by
    intro o
    rw [parseOption]
    by_cases hb : 1 ≤ (jsTrim o).length ∧ (jsTrim o).length ≤ 100
    · simp [if_pos hb, hb]
    · simp [if_neg hb, hb]
  rw [pollSchemaParse]
  by_cases hq : 1 ≤ (jsTrim q).length ∧ (jsTrim q).length ≤ 200
  · rw [if_pos hq]
    cases hpo : parseOptions opts with
    | none =>
      dsimp only
      have hiff := parseOptions_isSome opts
      rw [hpo] at hiff
      simp only [Option.isSome_none, Bool.false_eq_true, false_iff,
        not_forall] at hiff
      obtain ⟨o, ho, hno⟩ := hiff
      simp only [Option.isSome_none, Bool.false_eq_true, false_iff]
      intro hc
      exact hno ((hOptIff o).mpr (hc.2.1 o ho))
    | some topts =>
      dsimp only
      have hall : ∀ o ∈ opts, 1 ≤ (jsTrim o).length ∧ (jsTrim o).length ≤ 100 := by
        intro o ho
        exact (hOptIff o).mp
          ((parseOptions_isSome opts).mp (by rw [hpo]; rfl) o ho)
      by_cases hcount : 2 ≤ opts.length ∧ opts.length ≤ 10
      · rw [if_pos hcount]
        cases hd1 : coerceDateField d1 with
        | none =>
          dsimp only
          simp only [Option.isSome_none, Bool.false_eq_true, false_iff]
          intro hc
          exact absurd hc.2.2.2.1 (by simp)
        | some t1 =>
          cases hd2 : coerceDateField d2 with
          | none =>
            dsimp only
            simp only [Option.isSome_none, Bool.false_eq_true, false_iff]
            intro hc
            exact absurd hc.2.2.2.2 (by simp)
          | some t2 =>
            dsimp only
            simp only [Option.isSome_some, true_iff]
            exact ⟨hq, hall, hcount, trivial, trivial⟩
      · rw [if_neg hcount]
        simp only [Option.isSome_none, Bool.false_eq_true, false_iff]
        exact fun hc => absurd hc.2.2.1 hcount
  · rw [if_neg hq]
    simp only [Option.isSome_none, Bool.false_eq_true, false_iff]
    exact fun hc => absurd hc.1 hq

/-- On the output of the Normalizer the per-option trim is the identity. -/
theorem map_jsTrim_normalize (xs : List JStr) :
    (normalizeOptions xs).map jsTrim = normalizeOptions xs := by
  have := List.map_congr_left (l := normalizeOptions xs) (f := jsTrim) (g := id)
    (fun a ha => (normalizeOptions_mem xs a ha).2)
  simpa using this

/-! ### Facts about the operations -/
theorem foldl_latest (l : List PollRow) : ∀ (best r : PollRow),
    (∀ q ∈ l, q.created_at < r.created_at) →
    best.created_at < r.created_at →
    (l ++ [r]).foldl (fun best q =>
      if best.created_at < q.created_at then q else best) best = r := by
  induction l with
  | nil =>
    intro best r _ hb
    simp [List.foldl_cons, if_pos hb]
  | cons a t ih =>
    intro best r hl hb
    rw [List.cons_append, List.foldl_cons]
    by_cases hba : best.created_at < a.created_at
    · rw [if_pos hba]
      exact ih a r (fun q hq => hl q (List.mem_cons_of_mem _ hq))
        (hl a (List.mem_cons_self _ _))
    · rw [if_neg hba]
      exact ih best r (fun q hq => hl q (List.mem_cons_of_mem _ hq)) hb

theorem latestPollId_append (polls : List PollRow) (row : PollRow)
    (h : ∀ p ∈ polls, p.created_at < row.created_at) :
    latestPollId (polls ++ [row]) = some row.id := by
  cases polls with
  | nil => simp [latestPollId]
  | cons p rest =>
    rw [List.cons_append, latestPollId]
    rw [foldl_latest rest p row
      (fun q hq => h q (List.mem_cons_of_mem _ hq))
      (h p (List.mem_cons_self _ _))]

/-- Successful createPoll: shape of the resulting store. -/
theorem createPoll_success (st : Store) (u : JStr) (fd : FormPoll)
    (hInv : ∀ p ∈ st.polls, p.created_at < st.seq)
    (hres : (createPoll st (some u) fd).res = none) :
    ∃ parsed, pollSchemaParse fd.question (normalizeOptions fd.options)
        fd.scheduled_open_time fd.scheduled_close_time = some parsed ∧
      (createPoll st (some u) fd).store =
        ⟨st.polls ++ [⟨freshId st.seq, u, parsed.question, draftStatus,
            parsed.scheduled_open_time, parsed.scheduled_close_time, st.seq⟩],
          st.options ++ parsed.options.map (fun t => ⟨freshId st.seq, t⟩),
          st.votes, st.seq + 1⟩ := by
  rw [createPoll] at hres ⊢
  cases hp : pollSchemaParse fd.question (normalizeOptions fd.options)
      fd.scheduled_open_time fd.scheduled_close_time with
  | none =>
    rw [hp] at hres
    cases hres
  | some parsed =>
    rw [hp] at hres
    dsimp only at hres ⊢
    have hl : latestPollId (st.polls ++ [⟨freshId st.seq, u, parsed.question,
        draftStatus, parsed.scheduled_open_time, parsed.scheduled_close_time,
        st.seq⟩]) = some (freshId st.seq) :=
      latestPollId_append st.polls _ hInv
    rw [hl] at hres ⊢
    exact ⟨parsed, rfl, rfl⟩

/-- Any submitVote call that does not succeed leaves the store untouched. -/
theorem submitVote_err_store (st : Store) (user : Option JStr) (pid : JStr)
    (q : ℚ) (h : (submitVote st user pid q).res ≠ none) :
    (submitVote st user pid q).store = st := by
  cases user with
  | none => rfl
  | some u =>
    rw [submitVote] at h ⊢
    dsimp only at h ⊢
    by_cases h1 : isUuid pid = false
    · rw [if_pos h1]
    · rw [if_neg h1] at h ⊢
      by_cases h2 : q.den ≠ 1 ∨ q < 0
      · rw [if_pos h2]
      · rw [if_neg h2] at h ⊢
        cases hsp : singlePoll st pid with
        | none => rfl
        | some p =>
          rw [hsp] at h
          dsimp only at h ⊢
          by_cases h3 : ((pollOptions st pid).length : ℚ) ≤ q
          · rw [if_pos h3]
          · rw [if_neg h3] at h ⊢
            by_cases h4 : 0 < st.votes.countP
                (fun v => v.poll_id == pid && v.user_id == u)
            · rw [if_pos h4]
            · rw [if_neg h4] at h
              simp at h

theorem submitVote_voted_store (st : Store) (u : JStr) (pid : JStr) (q : ℚ)
    (h : ∃ v ∈ st.votes, v.poll_id = pid ∧ v.user_id = u) :
    (submitVote st (some u) pid q).store = st := by
  obtain ⟨v, hv, hvp, hvu⟩ := h
  have hcount : 0 < st.votes.countP
      (fun v => v.poll_id == pid && v.user_id == u) := by
    rw [List.countP_pos_iff]
    exact ⟨v, hv, by simp [hvp, hvu]⟩
  rw [submitVote]
  dsimp only
  by_cases h1 : isUuid pid = false
  · rw [if_pos h1]
  · rw [if_neg h1]
    by_cases h2 : q.den ≠ 1 ∨ q < 0
    · rw [if_pos h2]
    · rw [if_neg h2]
      cases hsp : singlePoll st pid with
      | none => rfl
      | some p =>
        dsimp only
        by_cases h3 : ((pollOptions st pid).length : ℚ) ≤ q
        · rw [if_pos h3]
        · rw [if_neg h3, if_pos hcount]

theorem submitVote_voted_res (st : Store) (u : JStr) (pid : JStr) (q : ℚ)
    (h : ∃ v ∈ st.votes, v.poll_id = pid ∧ v.user_id = u)
    (huuid : isUuid pid = true) (hden : q.den = 1) (hpos : 0 ≤ q)
    (p : PollRow) (hsp : singlePoll st pid = some p)
    (hlt : q < ((pollOptions st pid).length : ℚ)) :
    (submitVote st (some u) pid q).res = some alreadyVotedMsg := by
  obtain ⟨v, hv, hvp, hvu⟩ := h
  have hcount : 0 < st.votes.countP
      (fun v => v.poll_id == pid && v.user_id == u) := by
    rw [List.countP_pos_iff]
    exact ⟨v, hv, by simp [hvp, hvu]⟩
  rw [submitVote]
  dsimp only
  rw [if_neg (by rw [huuid]; simp)]
  rw [if_neg (by push_neg; exact ⟨hden, hpos⟩)]
  rw [hsp]
  dsimp only
  rw [if_neg (not_le.mpr hlt), if_pos hcount]

theorem submitVote_invalid_idx (st : Store) (u : JStr) (pid : JStr) (q : ℚ)
    (huuid : isUuid pid = true) (hbad : q.den ≠ 1 ∨ q < 0) :
    submitVote st (some u) pid q = ⟨some invalidOptionMsg, st, 0⟩ := by
  rw [submitVote]
  dsimp only
  rw [if_neg (by rw [huuid]; simp), if_pos hbad]

theorem submitVote_notfound (st : Store) (u : JStr) (pid : JStr) (q : ℚ)
    (huuid : isUuid pid = true) (hden : q.den = 1) (hpos : 0 ≤ q)
    (hsp : singlePoll st pid = none) :
    submitVote st (some u) pid q = ⟨some pollNotFoundMsg, st, 1⟩ := by
  rw [submitVote]
  dsimp only
  rw [if_neg (by rw [huuid]; simp)]
  rw [if_neg (by push_neg; exact ⟨hden, hpos⟩)]
  rw [hsp]

theorem submitVote_oob (st : Store) (u : JStr) (pid : JStr) (q : ℚ)
    (huuid : isUuid pid = true) (hden : q.den = 1) (hpos : 0 ≤ q)
    (p : PollRow) (hsp : singlePoll st pid = some p)
    (hge : ((pollOptions st pid).length : ℚ) ≤ q) :
    submitVote st (some u) pid q = ⟨some invalidOptionMsg, st, 1⟩ := by
  rw [submitVote]
  dsimp only
  rw [if_neg (by rw [huuid]; simp)]
  rw [if_neg (by push_neg; exact ⟨hden, hpos⟩)]
  rw [hsp]
  dsimp only
  rw [if_pos hge]

/-- Shape of a validated updatePoll call. -/
theorem updatePoll_shape (st : Store) (u : JStr) (pid : JStr) (fd : FormPoll)
    (parsed : ParsedPoll) (huuid : isUuid pid = true)
    (hp : pollSchemaParse fd.question (normalizeOptions fd.options)
      fd.scheduled_open_time fd.scheduled_close_time = some parsed) :
    updatePoll st (some u) pid fd =
      ⟨none,
        ⟨st.polls.map (fun p =>
          if p.id = pid ∧ p.user_id = u then
            ⟨p.id, p.user_id, parsed.question, p.status,
              parsed.scheduled_open_time, parsed.scheduled_close_time,
              p.created_at⟩
          else p),
          st.options.filter (fun o => ¬ o.poll_id = pid)
            ++ parsed.options.map (fun t => ⟨pid, t⟩),
          st.votes, st.seq⟩, 3⟩ := by
  rw [updatePoll]
  rw [if_neg (by rw [huuid]; simp), hp]

/-- Shape of a publishPoll call by an authenticated user. -/
theorem publishPoll_shape (st : Store) (u : JStr) (pid : JStr)
    (huuid : isUuid pid = true) :
    publishPoll st (some u) pid =
      ⟨none,
        ⟨st.polls.map (fun p =>
          if p.id = pid ∧ p.user_id = u then
            ⟨p.id, p.user_id, p.question, openStatus, p.scheduled_open_time,
              p.scheduled_close_time, p.created_at⟩
          else p),
          st.options, st.votes, st.seq⟩, 1⟩ := by
  rw [publishPoll]
  rw [if_neg (by rw [huuid]; simp)]

/-- Shape of a deletePoll call by an authenticated user. -/
theorem deletePoll_shape (st : Store) (u : JStr) (pid : JStr)
    (huuid : isUuid pid = true) :
    deletePoll st (some u) pid =
      ⟨none,
        ⟨st.polls.filter (fun p => ¬ (p.id = pid ∧ p.user_id = u)),
          if st.polls.any (fun p => p.id = pid ∧ p.user_id = u) then
            st.options.filter (fun o => ¬ o.poll_id = pid)
          else st.options,
          if st.polls.any (fun p => p.id = pid ∧ p.user_id = u) then
            st.votes.filter (fun v => ¬ v.poll_id = pid)
          else st.votes,
          st.seq⟩, 1⟩ := by
  rw [deletePoll]
  rw [if_neg (by rw [huuid]; simp)]

theorem createPoll_polls_cases (st : Store) (user : Option JStr)
    (fd : FormPoll) :
    ((createPoll st user fd).store.polls = st.polls ∧
      (createPoll st user fd).store.seq = st.seq) ∨
    (∃ (u : JStr) (parsed : ParsedPoll), user = some u ∧
      (createPoll st user fd).store.polls = st.polls ++
        [⟨freshId st.seq, u, parsed.question, draftStatus,
          parsed.scheduled_open_time, parsed.scheduled_close_time, st.seq⟩] ∧
      (createPoll st user fd).store.seq = st.seq + 1) := by
  rw [createPoll]
  cases hp : pollSchemaParse fd.question (normalizeOptions fd.options)
      fd.scheduled_open_time fd.scheduled_close_time with
  | none => exact Or.inl ⟨rfl, rfl⟩
  | some parsed =>
    cases user with
    | none => exact Or.inl ⟨rfl, rfl⟩
    | some u =>
      dsimp only
      cases hl : latestPollId (st.polls ++ [⟨freshId st.seq, u,
          parsed.question, draftStatus, parsed.scheduled_open_time,
          parsed.scheduled_close_time, st.seq⟩]) with
      | none => exact Or.inr ⟨u, parsed, rfl, rfl, rfl⟩
      | some pollId => exact Or.inr ⟨u, parsed, rfl, rfl, rfl⟩

theorem updatePoll_polls_cases (st : Store) (user : Option JStr) (pid : JStr)
    (fd : FormPoll) :
    (updatePoll st user pid fd).store.seq = st.seq ∧
    ((updatePoll st user pid fd).store.polls = st.polls ∨
      ∃ f : PollRow → PollRow,
        (∀ p, (f p).status = p.status ∧ (f p).created_at = p.created_at) ∧
        (updatePoll st user pid fd).store.polls = st.polls.map f) := by
  rw [updatePoll]
  by_cases h1 : isUuid pid = false
  · rw [if_pos h1]; exact ⟨rfl, Or.inl rfl⟩
  · rw [if_neg h1]
    cases hp : pollSchemaParse fd.question (normalizeOptions fd.options)
        fd.scheduled_open_time fd.scheduled_close_time with
    | none => exact ⟨rfl, Or.inl rfl⟩
    | some parsed =>
      cases user with
      | none => exact ⟨rfl, Or.inl rfl⟩
      | some u =>
        dsimp only
        refine ⟨rfl, Or.inr ⟨_, ?_, rfl⟩⟩
        intro p
        by_cases hm : p.id = pid ∧ p.user_id = u
        · rw [if_pos hm]; exact ⟨rfl, rfl⟩
        · rw [if_neg hm]; exact ⟨rfl, rfl⟩

theorem publishPoll_polls_cases (st : Store) (user : Option JStr)
    (pid : JStr) :
    (publishPoll st user pid).store.seq = st.seq ∧
    ((publishPoll st user pid).store.polls = st.polls ∨
      ∃ f : PollRow → PollRow,
        (∀ p, ((f p).status = p.status ∨ (f p).status = openStatus) ∧
          (f p).created_at = p.created_at) ∧
        (publishPoll st user pid).store.polls = st.polls.map f) := by
  cases user with
  | none =>
    rw [publishPoll]
    by_cases h1 : isUuid pid = false
    · rw [if_pos h1]; exact ⟨rfl, Or.inl rfl⟩
    · rw [if_neg h1]; exact ⟨rfl, Or.inl rfl⟩
  | some u =>
    rw [publishPoll]
    by_cases h1 : isUuid pid = false
    · rw [if_pos h1]; exact ⟨rfl, Or.inl rfl⟩
    · rw [if_neg h1]
      dsimp only
      refine ⟨rfl, Or.inr ⟨_, ?_, rfl⟩⟩
      intro p
      by_cases hm : p.id = pid ∧ p.user_id = u
      · rw [if_pos hm]; exact ⟨Or.inr rfl, rfl⟩
      · rw [if_neg hm]; exact ⟨Or.inl rfl, rfl⟩

theorem deletePoll_polls_cases (st : Store) (user : Option JStr)
    (pid : JStr) :
    (deletePoll st user pid).store.seq = st.seq ∧
    (deletePoll st user pid).store.polls.Sublist st.polls := by
  cases user with
  | none =>
    rw [deletePoll]
    by_cases h1 : isUuid pid = false
    · rw [if_pos h1]; exact ⟨rfl, List.Sublist.refl _⟩
    · rw [if_neg h1]; exact ⟨rfl, List.Sublist.refl _⟩
  | some u =>
    rw [deletePoll]
    by_cases h1 : isUuid pid = false
    · rw [if_pos h1]; exact ⟨rfl, List.Sublist.refl _⟩
    · rw [if_neg h1]; exact ⟨rfl, List.filter_sublist _⟩

theorem submitVote_polls_cases (st : Store) (user : Option JStr) (pid : JStr)
    (q : ℚ) :
    (submitVote st user pid q).store.seq = st.seq ∧
    (submitVote st user pid q).store.polls = st.polls := by
  cases user with
  | none => exact ⟨rfl, rfl⟩
  | some u =>
    rw [submitVote]
    dsimp only
    by_cases h1 : isUuid pid = false
    · rw [if_pos h1]; exact ⟨rfl, rfl⟩
    · rw [if_neg h1]
      by_cases h2 : q.den ≠ 1 ∨ q < 0
      · rw [if_pos h2]; exact ⟨rfl, rfl⟩
      · rw [if_neg h2]
        cases hsp : singlePoll st pid with
        | none => exact ⟨rfl, rfl⟩
        | some p =>
          dsimp only
          by_cases h3 : ((pollOptions st pid).length : ℚ) ≤ q
          · rw [if_pos h3]; exact ⟨rfl, rfl⟩
          · rw [if_neg h3]
            by_cases h4 : 0 < st.votes.countP
                (fun v => v.poll_id == pid && v.user_id == u)
            · rw [if_pos h4]; exact ⟨rfl, rfl⟩
            · rw [if_neg h4]; exact ⟨rfl, rfl⟩

theorem pairwise_created_unique (l : List PollRow)
    (h : l.Pairwise (fun a b => a.created_at ≠ b.created_at))
    (p q : PollRow) (hp : p ∈ l) (hq : q ∈ l)
    (he : p.created_at = q.created_at) : p = q := by
  induction l with
  | nil => cases hp
  | cons a t ih =>
    obtain ⟨ha, hpair⟩ := List.pairwise_cons.mp h
    rcases List.mem_cons.mp hp with hp1 | hp2
    · rcases List.mem_cons.mp hq with hq1 | hq2
      · rw [hp1, hq1]
      · exact absurd (hp1 ▸ he) (ha q hq2)
    · rcases List.mem_cons.mp hq with hq1 | hq2
      · exact absurd (hq1 ▸ he).symm (ha p hp2)
      · exact ih hpair hp2 hq2

theorem step_inv_statusOK {st st' : Store} (hstep : Step st st')
    (hInv : Inv st)
    (hOK : ∀ p ∈ st.polls, p.status = draftStatus ∨ p.status = openStatus) :
    Inv st' ∧
      ∀ p ∈ st'.polls, p.status = draftStatus ∨ p.status = openStatus := by
  obtain ⟨hbound, hpair⟩ := hInv
  unfold Inv
  cases hstep with
  | create user fd =>
    rcases createPoll_polls_cases st user fd with ⟨hpl, hseq⟩ | ⟨u, parsed, _, hpl, hseq⟩
    · rw [hpl, hseq]
      exact ⟨⟨hbound, hpair⟩, hOK⟩
    · rw [hpl, hseq]
      refine ⟨⟨?_, ?_⟩, ?_⟩
      · intro p hp
        rcases List.mem_append.mp hp with h1 | h2
        · exact Nat.lt_succ_of_lt (hbound p h1)
        · rw [List.mem_singleton.mp h2]
          exact Nat.lt_succ_self _
      · rw [List.pairwise_append]
        refine ⟨hpair, List.pairwise_singleton _ _, ?_⟩
        intro a ha b hb
        rw [List.mem_singleton.mp hb]
        exact Nat.ne_of_lt (hbound a ha)
      · intro p hp
        rcases List.mem_append.mp hp with h1 | h2
        · exact hOK p h1
        · rw [List.mem_singleton.mp h2]
          exact Or.inl rfl
  | update user pid fd =>
    rcases updatePoll_polls_cases st user pid fd with ⟨hseq, hpl | ⟨f, hf, hpl⟩⟩
    · rw [hpl, hseq]; exact ⟨⟨hbound, hpair⟩, hOK⟩
    · rw [hpl, hseq]
      refine ⟨⟨?_, ?_⟩, ?_⟩
      · intro p hp
        obtain ⟨a, ha, rfl⟩ := List.mem_map.mp hp
        rw [(hf a).2]
        exact hbound a ha
      · rw [List.pairwise_map]
        refine hpair.imp_of_mem ?_
        intro a b _ _ hne
        rw [(hf a).2, (hf b).2]
        exact hne
      · intro p hp
        obtain ⟨a, ha, rfl⟩ := List.mem_map.mp hp
        rw [(hf a).1]
        exact hOK a ha
  | del user pid =>
    obtain ⟨hseq, hsub⟩ := deletePoll_polls_cases st user pid
    rw [hseq]
    refine ⟨⟨?_, hpair.sublist hsub⟩, ?_⟩
    · intro p hp
      exact hbound p (hsub.mem hp)
    · intro p hp
      exact hOK p (hsub.mem hp)
  | publish user pid =>
    rcases publishPoll_polls_cases st user pid with ⟨hseq, hpl | ⟨f, hf, hpl⟩⟩
    · rw [hpl, hseq]; exact ⟨⟨hbound, hpair⟩, hOK⟩
    · rw [hpl, hseq]
      refine ⟨⟨?_, ?_⟩, ?_⟩
      · intro p hp
        obtain ⟨a, ha, rfl⟩ := List.mem_map.mp hp
        rw [(hf a).2]
        exact hbound a ha
      · rw [List.pairwise_map]
        refine hpair.imp_of_mem ?_
        intro a b _ _ hne
        rw [(hf a).2, (hf b).2]
        exact hne
      · intro p hp
        obtain ⟨a, ha, rfl⟩ := List.mem_map.mp hp
        rcases (hf a).1 with h1 | h2
        · rw [h1]; exact hOK a ha
        · rw [h2]; exact Or.inr rfl
  | vote user pid q =>
    obtain ⟨hseq, hpl⟩ := submitVote_polls_cases st user pid q
    rw [hpl, hseq]
    exact ⟨⟨hbound, hpair⟩, hOK⟩

theorem reach_inv_statusOK (st : Store) (h : Reach st) :
    Inv st ∧
      ∀ p ∈ st.polls, p.status = draftStatus ∨ p.status = openStatus := by
  induction h with
  | init =>
    refine ⟨⟨?_, ?_⟩, ?_⟩ <;> simp [initStore, Inv]
  | step _ hstep ih => exact step_inv_statusOK hstep ih.1 ih.2

/-- An already published (or otherwise non-draft) poll is never sent back
to the draft status by any operation. -/
theorem step_no_new_draft {st st' : Store} (hInv : Inv st) (hstep : Step st st')
    (p : PollRow) (hp : p ∈ st.polls) (hnd : p.status ≠ draftStatus)
    (p' : PollRow) (hp' : p' ∈ st'.polls)
    (he : p'.created_at = p.created_at) : p'.status ≠ draftStatus := by
  obtain ⟨hbound, hpair⟩ := hInv
  cases hstep with
  | create user fd =>
    rcases createPoll_polls_cases st user fd with ⟨hpl, _⟩ | ⟨u, parsed, _, hpl, _⟩
    · rw [hpl] at hp'
      rw [pairwise_created_unique st.polls hpair p' p hp' hp he]
      exact hnd
    · rw [hpl] at hp'
      rcases List.mem_append.mp hp' with h1 | h2
      · rw [pairwise_created_unique st.polls hpair p' p h1 hp he]
        exact hnd
      · rw [List.mem_singleton.mp h2] at he
        exact absurd he.symm (Nat.ne_of_lt (hbound p hp))
  | update user pid fd =>
    rcases updatePoll_polls_cases st user pid fd with ⟨_, hpl | ⟨f, hf, hpl⟩⟩
    · rw [hpl] at hp'
      rw [pairwise_created_unique st.polls hpair p' p hp' hp he]
      exact hnd
    · rw [hpl] at hp'
      obtain ⟨a, ha, rfl⟩ := List.mem_map.mp hp'
      rw [(hf a).2] at he
      rw [(hf a).1, pairwise_created_unique st.polls hpair a p ha hp he]
      exact hnd
  | del user pid =>
    obtain ⟨_, hsub⟩ := deletePoll_polls_cases st user pid
    rw [pairwise_created_unique st.polls hpair p' p (hsub.mem hp') hp he]
    exact hnd
  | publish user pid =>
    rcases publishPoll_polls_cases st user pid with ⟨_, hpl | ⟨f, hf, hpl⟩⟩
    · rw [hpl] at hp'
      rw [pairwise_created_unique st.polls hpair p' p hp' hp he]
      exact hnd
    · rw [hpl] at hp'
      obtain ⟨a, ha, rfl⟩ := List.mem_map.mp hp'
      rw [(hf a).2] at he
      rcases (hf a).1 with h1 | h2
      · rw [h1, pairwise_created_unique st.polls hpair a p ha hp he]
        exact hnd
      · rw [h2]
        intro hc
        exact absurd (hc.symm.trans rfl) (by decide)
  | vote user pid q =>
    obtain ⟨_, hpl⟩ := submitVote_polls_cases st user pid q
    rw [hpl] at hp'
    rw [pairwise_created_unique st.polls hpair p' p hp' hp he]
    exact hnd

/-- Among createPoll, updatePoll, deletePoll and submitVote no surviving
poll row changes status. -/
theorem non_publish_status_fixed (st : Store) (hInv : Inv st)
    (user : Option JStr) (fd : FormPoll) (pid : JStr) (q : ℚ) :
    (∀ p ∈ st.polls, ∀ p' ∈ (createPoll st user fd).store.polls,
      p'.created_at = p.created_at → p'.status = p.status) ∧
    (∀ p ∈ st.polls, ∀ p' ∈ (updatePoll st user pid fd).store.polls,
      p'.created_at = p.created_at → p'.status = p.status) ∧
    (∀ p ∈ st.polls, ∀ p' ∈ (deletePoll st user pid).store.polls,
      p'.created_at = p.created_at → p'.status = p.status) ∧
    (∀ p ∈ st.polls, ∀ p' ∈ (submitVote st user pid q).store.polls,
      p'.created_at = p.created_at → p'.status = p.status) := by
  obtain ⟨hbound, hpair⟩ := hInv
  refine ⟨?_, ?_, ?_, ?_⟩
  · intro p hp p' hp' he
    rcases createPoll_polls_cases st user fd with ⟨hpl, _⟩ | ⟨u, parsed, _, hpl, _⟩
    · rw [hpl] at hp'
      rw [pairwise_created_unique st.polls hpair p' p hp' hp he]
    · rw [hpl] at hp'
      rcases List.mem_append.mp hp' with h1 | h2
      · rw [pairwise_created_unique st.polls hpair p' p h1 hp he]
      · rw [List.mem_singleton.mp h2] at he
        exact absurd he.symm (Nat.ne_of_lt (hbound p hp))
  · intro p hp p' hp' he
    rcases updatePoll_polls_cases st user pid fd with ⟨_, hpl | ⟨f, hf, hpl⟩⟩
    · rw [hpl] at hp'
      rw [pairwise_created_unique st.polls hpair p' p hp' hp he]
    · rw [hpl] at hp'
      obtain ⟨a, ha, rfl⟩ := List.mem_map.mp hp'
      rw [(hf a).2] at he
      rw [(hf a).1, pairwise_created_unique st.polls hpair a p ha hp he]
  · intro p hp p' hp' he
    obtain ⟨_, hsub⟩ := deletePoll_polls_cases st user pid
    rw [pairwise_created_unique st.polls hpair p' p (hsub.mem hp') hp he]
  · intro p hp p' hp' he
    obtain ⟨_, hpl⟩ := submitVote_polls_cases st user pid q
    rw [hpl] at hp'
    rw [pairwise_created_unique st.polls hpair p' p hp' hp he]

theorem validatePoll_false_iff (q : JStr) (opts : List JStr)
    (d1 d2 : DateField) :
    validatePoll q opts d1 d2 = false ↔
      (jsTrim q = [] ∨ 200 < (jsTrim q).length ∨
        (normalizeOptions opts).length < 2 ∨
        10 < (normalizeOptions opts).length ∨
        (∃ o ∈ normalizeOptions opts, 100 < o.length) ∨
        coerceDateField d1 = none ∨ coerceDateField d2 = none) := by
  have hfix : ∀ o ∈ normalizeOptions opts, o ≠ [] ∧ jsTrim o = o :=
    fun o ho => normalizeOptions_mem opts o ho
  have h0 : validatePoll q opts d1 d2 = false ↔
      ¬ ((pollSchemaParse q (normalizeOptions opts) d1 d2).isSome = true) := by
    rw [validatePoll]
    cases (pollSchemaParse q (normalizeOptions opts) d1 d2).isSome <;> simp
  rw [h0, pollSchemaParse_isSome_iff]
  have hB : (∀ o ∈ normalizeOptions opts,
      1 ≤ (jsTrim o).length ∧ (jsTrim o).length ≤ 100) ↔
      ∀ o ∈ normalizeOptions opts, o.length ≤ 100 := by
    constructor
    · intro h o ho
      have h2 := (h o ho).2
      rw [(hfix o ho).2] at h2
      exact h2
    · intro h o ho
      rw [(hfix o ho).2]
      refine ⟨?_, h o ho⟩
      have := (hfix o ho).1
      cases hco : o with
      | nil => exact absurd hco this
      | cons a t => simp [hco]
  have hD1 : ((coerceDateField d1).isSome = true) ↔
      ¬ coerceDateField d1 = none := by
    cases coerceDateField d1 <;> simp
  have hD2 : ((coerceDateField d2).isSome = true) ↔
      ¬ coerceDateField d2 = none := by
    cases coerceDateField d2 <;> simp
  rw [hB, hD1, hD2]
  have hempty : ((jsTrim q).length < 1) ↔ jsTrim q = [] := by
    rw [Nat.lt_one_iff, List.length_eq_zero]
  constructor
  · intro hneg
    by_cases hA : 1 ≤ (jsTrim q).length ∧ (jsTrim q).length ≤ 200
    · by_cases hBB : ∀ o ∈ normalizeOptions opts, o.length ≤ 100
      · by_cases hC : 2 ≤ (normalizeOptions opts).length ∧
            (normalizeOptions opts).length ≤ 10
        · by_cases hd1 : coerceDateField d1 = none
          · exact Or.inr (Or.inr (Or.inr (Or.inr (Or.inr (Or.inl hd1)))))
          · by_cases hd2 : coerceDateField d2 = none
            · exact Or.inr (Or.inr (Or.inr (Or.inr (Or.inr (Or.inr hd2)))))
            · exact absurd ⟨hA, hBB, hC, hd1, hd2⟩ hneg
        · rcases Nat.lt_or_ge (normalizeOptions opts).length 2 with h | h
          · exact Or.inr (Or.inr (Or.inl h))
          · refine Or.inr (Or.inr (Or.inr (Or.inl ?_)))
            rcases Nat.lt_or_ge 10 (normalizeOptions opts).length with h2 | h2
            · exact h2
            · exact absurd ⟨h, h2⟩ hC
      · rw [not_forall] at hBB
        obtain ⟨o, hBB⟩ := hBB
        rw [Classical.not_imp] at hBB
        exact Or.inr (Or.inr (Or.inr (Or.inr (Or.inl
          ⟨o, hBB.1, Nat.lt_of_not_le hBB.2⟩))))
    · rw [not_and_or] at hA
      rcases hA with h | h
      · exact Or.inl (hempty.mp (Nat.lt_of_not_le h))
      · exact Or.inr (Or.inl (Nat.lt_of_not_le h))
  · intro hdisj hall
    obtain ⟨hA, hBB, hC, hd1, hd2⟩ := hall
    rcases hdisj with h | h | h | h | h | h | h
    · rw [← hempty] at h
      exact absurd hA.1 (Nat.not_le_of_lt h)
    · exact absurd hA.2 (Nat.not_le_of_lt h)
    · exact absurd hC.1 (Nat.not_le_of_lt h)
    · exact absurd hC.2 (Nat.not_le_of_lt h)
    · obtain ⟨o, ho, hlen⟩ := h
      exact absurd (hBB o ho) (Nat.not_le_of_lt hlen)
    · exact absurd h hd1
    · exact absurd h hd2

theorem pollOptions_replaced (A : List OptionRow) (B : List JStr)
    (pid : JStr) :
    ((A.filter (fun o => ¬ o.poll_id = pid) ++
        B.map (fun t => (⟨pid, t⟩ : OptionRow))).filter
        (fun o => o.poll_id = pid)).map OptionRow.text = B := by
  rw [List.filter_append]
  have h1 : (A.filter (fun o => ¬ o.poll_id = pid)).filter
      (fun o => o.poll_id = pid) = [] := by
    rw [List.filter_eq_nil_iff]
    intro o ho
    have := (List.mem_filter.mp ho).2
    simpa using this
  have h2 : (B.map (fun t : JStr => (⟨pid, t⟩ : OptionRow))).filter
      (fun o => o.poll_id = pid) = B.map (fun t => ⟨pid, t⟩) := by
    rw [List.filter_eq_self]
    intro o ho
    obtain ⟨t, _, rfl⟩ := List.mem_map.mp ho
    simp
  rw [h1, h2, List.nil_append, List.map_map]
  have hid : OptionRow.text ∘ (fun t : JStr => (⟨pid, t⟩ : OptionRow)) = id := rfl
  rw [hid, List.map_id]

theorem pollOptions_appended (A : List OptionRow) (B : List JStr)
    (pid : JStr) (h : A.filter (fun o => o.poll_id = pid) = []) :
    ((A ++ B.map (fun t => (⟨pid, t⟩ : OptionRow))).filter
        (fun o => o.poll_id = pid)).map OptionRow.text = B := by
  rw [List.filter_append, h, List.nil_append]
  have h2 : (B.map (fun t : JStr => (⟨pid, t⟩ : OptionRow))).filter
      (fun o => o.poll_id = pid) = B.map (fun t => ⟨pid, t⟩) := by
    rw [List.filter_eq_self]
    intro o ho
    obtain ⟨t, _, rfl⟩ := List.mem_map.mp ho
    simp
  rw [h2, List.map_map]
  have hid : OptionRow.text ∘ (fun t : JStr => (⟨pid, t⟩ : OptionRow)) = id := rfl
  rw [hid, List.map_id]

/-! ### The claims -/
/--
C1, counterexample: the claim demands the AlreadyVoted error for a repeat
submitVote with any option index, valid or not; but with carol's vote on
poll pidA stored, submitVote by carol with option index -1 returns the
InvalidInput message instead, because the index check precedes the
duplicate check.
-/
theorem c1_counterexample :
    (∃ v ∈ stVoted.votes, v.poll_id = pidA ∧ v.user_id = carol) ∧
    (submitVote stVoted (some carol) pidA (-1)).res = some invalidOptionMsg ∧
    some invalidOptionMsg ≠ some alreadyVotedMsg := by
  decide

/--
C1, amended: once a vote by user u on poll pid is persisted, every later
submitVote by u on pid leaves the store unchanged (no second vote is ever
inserted), and returns the AlreadyVoted error whenever the submitted
option index is a valid one (an integer within the poll's option count);
an invalid index is reported as InvalidInput by the earlier checks.
-/
theorem c1_vote_unique (st : Store) (u pid : JStr) (q : ℚ)
    (h : ∃ v ∈ st.votes, v.poll_id = pid ∧ v.user_id = u) :
    (submitVote st (some u) pid q).store = st ∧
    (∀ p : PollRow, isUuid pid = true → singlePoll st pid = some p →
      q.den = 1 → 0 ≤ q → q < ((pollOptions st pid).length : ℚ) →
      (submitVote st (some u) pid q).res = some alreadyVotedMsg) :=
  ⟨submitVote_voted_store st u pid q h,
    fun p huuid hsp hden hpos hlt =>
      submitVote_voted_res st u pid q h huuid hden hpos p hsp hlt⟩

theorem c1_witness :
    (submitVote stVoted (some carol) pidA 1).store = stVoted ∧
    (submitVote stVoted (some carol) pidA 1).res = some alreadyVotedMsg := by
  have h := c1_vote_unique stVoted carol pidA 1
    ⟨⟨pidA, carol, 0⟩, by decide, by decide, by decide⟩
  exact ⟨h.1, h.2 ⟨pidA, alice, "Best color?".toList, draftStatus, none,
    none, 0⟩ (by decide) (by decide) (by decide) (by decide) (by decide)⟩

/--
C2, code bug: updatePoll by the authenticated non-owner bob on alice's
poll reports success and replaces the poll's options rows, because the
delete and insert on the options table are not scoped by the owner,
contradicting both the claim and the function's own documentation; the
delete and publish paths do behave as the no-op the claim describes.
-/
theorem c2_nonowner_update_mutates :
    bob ≠ alice ∧
    (∃ p ∈ stMain.polls, p.id = pidA ∧ p.user_id = alice) ∧
    (updatePoll stMain (some bob) pidA fdHijack).res = none ∧
    (updatePoll stMain (some bob) pidA fdHijack).store.polls = stMain.polls ∧
    (pollOptions (updatePoll stMain (some bob) pidA fdHijack).store
      pidA).map OptionRow.text = ["X".toList, "Y".toList] ∧
    (pollOptions stMain pidA).map OptionRow.text
      = ["Red".toList, "Blue".toList] ∧
    (deletePoll stMain (some bob) pidA).store = stMain ∧
    (publishPoll stMain (some bob) pidA).store = stMain := by
  decide

/--
C3: a successful createPoll appends exactly one poll row whose option set
is exactly the validated normalized options, between 2 and 10 of them
(provided no stray option rows already carry the fresh id), and a
successful updatePoll wholly replaces the poll's option set with the
validated normalized options, again between 2 and 10 of them.
-/
theorem c3_option_bounds (st : Store) (u : JStr) (fd : FormPoll)
    (pid : JStr) :
    ((∀ p ∈ st.polls, p.created_at < st.seq) →
      (createPoll st (some u) fd).res = none →
      2 ≤ (normalizeOptions fd.options).length ∧
      (normalizeOptions fd.options).length ≤ 10 ∧
      ∃ row : PollRow,
        (createPoll st (some u) fd).store.polls = st.polls ++ [row] ∧
        (pollOptions st row.id = [] →
          (pollOptions (createPoll st (some u) fd).store row.id).map
            OptionRow.text = normalizeOptions fd.options)) ∧
    (isUuid pid = true → (updatePoll st (some u) pid fd).res = none →
      2 ≤ (normalizeOptions fd.options).length ∧
      (normalizeOptions fd.options).length ≤ 10 ∧
      (pollOptions (updatePoll st (some u) pid fd).store pid).map
        OptionRow.text = normalizeOptions fd.options) := by
  constructor
  · intro hInv hres
    obtain ⟨parsed, hp, hstore⟩ := createPoll_success st u fd hInv hres
    obtain ⟨-, hopts, hmin, hmax⟩ :=
      pollSchemaParse_some _ _ _ _ _ hp
    rw [map_jsTrim_normalize] at hopts
    refine ⟨hmin, hmax, ⟨freshId st.seq, u, parsed.question, draftStatus,
      parsed.scheduled_open_time, parsed.scheduled_close_time, st.seq⟩,
      ?_, ?_⟩
    · rw [hstore]
    · intro hnone
      rw [pollOptions, hstore]
      dsimp only
      rw [← hopts]
      exact pollOptions_appended st.options parsed.options (freshId st.seq)
        hnone
  · intro huuid hres
    cases hp : pollSchemaParse fd.question (normalizeOptions fd.options)
        fd.scheduled_open_time fd.scheduled_close_time with
    | none =>
      rw [updatePoll, if_neg (by rw [huuid]; simp), hp] at hres
      cases hres
    | some parsed =>
      obtain ⟨-, hopts, hmin, hmax⟩ := pollSchemaParse_some _ _ _ _ _ hp
      rw [map_jsTrim_normalize] at hopts
      refine ⟨hmin, hmax, ?_⟩
      rw [updatePoll_shape st u pid fd parsed huuid hp, pollOptions]
      dsimp only
      rw [← hopts]
      exact pollOptions_replaced st.options parsed.options pid

theorem c3_witness :
    (∀ p ∈ initStore.polls, p.created_at < initStore.seq) ∧
    (createPoll initStore (some alice) fdColors).res = none ∧
    (2 ≤ (normalizeOptions fdColors.options).length ∧
      (normalizeOptions fdColors.options).length ≤ 10 ∧
      ∃ row : PollRow,
        (createPoll initStore (some alice) fdColors).store.polls
          = initStore.polls ++ [row] ∧
        (pollOptions initStore row.id = [] →
          (pollOptions (createPoll initStore (some alice) fdColors).store
            row.id).map OptionRow.text = normalizeOptions fdColors.options)) ∧
    (2 ≤ (normalizeOptions fdHijack.options).length ∧
      (normalizeOptions fdHijack.options).length ≤ 10 ∧
      (pollOptions (updatePoll stMain (some alice) pidA fdHijack).store
        pidA).map OptionRow.text = normalizeOptions fdHijack.options) := by
  refine ⟨by decide, by decide, ?_, ?_⟩
  · exact (c3_option_bounds initStore alice fdColors pidA).1
      (by decide) (by decide)
  · exact (c3_option_bounds stMain alice fdHijack pidA).2
      (by decide) (by decide)

/--
C4, counterexample: for an authenticated caller and a well-formed id of a
poll that does not exist, submitVote with option index -1 returns the
InvalidInput message, not the NotFound error the claim requires for every
option index, because the sign and integrality check precedes the poll
lookup.
-/
theorem c4_counterexample :
    singlePoll stMain pidB = none ∧
    (submitVote stMain (some carol) pidB (-1)).res = some invalidOptionMsg ∧
    some invalidOptionMsg ≠ (some pollNotFoundMsg : Option JStr) := by
  decide

/--
C4, amended: for an authenticated caller and a well-formed poll id,
submitVote rejects a non-integer or negative index as InvalidInput before
the poll lookup; with a non-negative integer index it performs the lookup
and fails with NotFound when the poll is absent, then rejects an index at
or above the option count as InvalidInput; every failing call leaves the
store unchanged, so no partial vote is ever persisted.
-/
theorem c4_check_order (st : Store) (u pid : JStr) (q : ℚ)
    (huuid : isUuid pid = true) :
    ((q.den ≠ 1 ∨ q < 0) →
      submitVote st (some u) pid q = ⟨some invalidOptionMsg, st, 0⟩) ∧
    (q.den = 1 → 0 ≤ q → singlePoll st pid = none →
      submitVote st (some u) pid q = ⟨some pollNotFoundMsg, st, 1⟩) ∧
    (∀ p : PollRow, q.den = 1 → 0 ≤ q → singlePoll st pid = some p →
      ((pollOptions st pid).length : ℚ) ≤ q →
      submitVote st (some u) pid q = ⟨some invalidOptionMsg, st, 1⟩) ∧
    ((submitVote st (some u) pid q).res ≠ none →
      (submitVote st (some u) pid q).store = st) :=
  ⟨fun hbad => submitVote_invalid_idx st u pid q huuid hbad,
    fun hden hpos hsp => submitVote_notfound st u pid q huuid hden hpos hsp,
    fun p hden hpos hsp hge =>
      submitVote_oob st u pid q huuid hden hpos p hsp hge,
    fun herr => submitVote_err_store st (some u) pid q herr⟩

theorem c4_witness :
    submitVote stMain (some carol) pidB 0
      = ⟨some pollNotFoundMsg, stMain, 1⟩ ∧
    submitVote stMain (some carol) pidA 2
      = ⟨some invalidOptionMsg, stMain, 1⟩ := by
  refine ⟨(c4_check_order stMain carol pidB 0 (by decide)).2.1
    (by decide) (by decide) (by decide), ?_⟩
  exact (c4_check_order stMain carol pidA 2 (by decide)).2.2.1
    ⟨pidA, alice, "Best color?".toList, draftStatus, none, none, 0⟩
    (by decide) (by decide) (by decide) (by decide)

/--
C5, counterexample: the identifier format check accepts the version-1
shaped string 00000000-0000-1000-8000-000000000000, so it is not the case
that exactly the version-4 shaped strings pass.
-/
theorem c5_counterexample :
    isUuid uuidV1 = true ∧ ¬ UuidShapeWith ['4'] uuidV1 := by
  constructor
  · decide
  · rintro ⟨g1, g2, g3, g4, g5, v, w, hs, hl1, hl2, hl3, hl4, hl5,
      hh1, hh2, hh3, hh4, hh5, hv, hw⟩
    have hdl : ∀ (g X : List Char) (n : Nat), g.length = n →
        (g ++ X).drop n = X := by
      intro g X n hg
      rw [← hg, List.drop_left]
    have h8 := congrArg (List.drop 8) hs
    rw [hdl g1 _ 8 hl1] at h8
    have hc8 : uuidV1.drop 8
        = '-' :: "0000-1000-8000-000000000000".toList := rfl
    rw [hc8] at h8
    injection h8 with _ h9
    have h13 := congrArg (List.drop 4) h9
    rw [hdl g2 _ 4 hl2] at h13
    have hc13 : ("0000-1000-8000-000000000000".toList).drop 4
        = '-' :: '1' :: "000-8000-000000000000".toList := rfl
    rw [hc13] at h13
    injection h13 with _ h14
    injection h14 with h15 _
    rw [← h15] at hv
    exact absurd hv (by decide)

/--
C5, amended: the format check accepts exactly the hyphen-grouped hex
strings whose version character is any of 1 to 5 (with variant character
8, 9, a, b, A or B), and every identifier rejected by it makes each
operation that takes a poll id, called by an authenticated user, return
its InvalidInput error immediately: no storage round-trip and an
unchanged store.
-/
theorem c5_id_format :
    (∀ s : JStr, isUuid s = true ↔
      UuidShapeWith ['1', '2', '3', '4', '5'] s) ∧
    (∀ (st : Store) (u id : JStr) (q : ℚ) (fd : FormPoll)
        (optCol : Option (List JStr)), isUuid id = false →
      getPollById st id = ⟨none, some invalidPollIdMsg, 0⟩ ∧
      submitVote st (some u) id q = ⟨some invalidPollIdMsg, st, 0⟩ ∧
      updatePoll st (some u) id fd = ⟨some invalidPollIdMsg, st, 0⟩ ∧
      deletePoll st (some u) id = ⟨some invalidPollIdMsg, st, 0⟩ ∧
      publishPoll st (some u) id = ⟨some invalidPollIdMsg, st, 0⟩ ∧
      getPollAnalytics st (some u) id optCol
        = ⟨none, some invalidPollIDMsg, 0⟩) := by
  refine ⟨isUuid_iff_shape, ?_⟩
  intro st u id q fd optCol h
  refine ⟨?_, ?_, ?_, ?_, ?_, ?_⟩
  · rw [getPollById, if_pos h]
  · rw [submitVote]
    rw [if_pos h]
  · rw [updatePoll, if_pos h]
  · rw [deletePoll, if_pos h]
  · rw [publishPoll, if_pos h]
  · rw [getPollAnalytics]
    rw [if_pos h]

theorem c5_witness :
    getPollById stMain "abc".toList = ⟨none, some invalidPollIdMsg, 0⟩ ∧
    submitVote stMain (some carol) "abc".toList 0
      = ⟨some invalidPollIdMsg, stMain, 0⟩ ∧
    updatePoll stMain (some carol) "abc".toList fdColors
      = ⟨some invalidPollIdMsg, stMain, 0⟩ ∧
    deletePoll stMain (some carol) "abc".toList
      = ⟨some invalidPollIdMsg, stMain, 0⟩ ∧
    publishPoll stMain (some carol) "abc".toList
      = ⟨some invalidPollIdMsg, stMain, 0⟩ ∧
    getPollAnalytics stMain (some carol) "abc".toList none
      = ⟨none, some invalidPollIDMsg, 0⟩ :=
  c5_id_format.2 stMain carol "abc".toList 0 fdColors none (by decide)

/--
C6: the Option Normalizer computes exactly the spec-side description:
trim each entry, drop empties, keep the first occurrence among entries
equal case-insensitively, truncate to 10; in particular Yes, yes, NO maps
to Yes, NO, and no output exceeds 10 entries.  Being a total function it
never fails.
-/
theorem c6_normalizer :
    (∀ xs, normalizeOptions xs = specNormalize xs) ∧
    normalizeOptions ["Yes".toList, "yes".toList, "NO".toList]
      = ["Yes".toList, "NO".toList] ∧
    ∀ xs, (normalizeOptions xs).length ≤ 10 := by
  refine ⟨normalizeOptions_eq_spec, by decide, ?_⟩
  intro xs
  rw [normalizeOptions_eq_spec, specNormalize]
  exact List.length_take_le _ _

/--
C7, counterexample: the Poll Validator also fails when a supplied
scheduled time string does not parse as a date, an input on which none of
the conditions listed by the claim is violated, so the "only if"
direction of the claimed equivalence is false.
-/
theorem c7_counterexample :
    validatePoll "Pick one".toList ["A".toList, "B".toList]
      (.str none) .null = false ∧
    ¬ (jsTrim "Pick one".toList = [] ∨
        200 < (jsTrim "Pick one".toList).length ∨
        (normalizeOptions ["A".toList, "B".toList]).length < 2 ∨
        10 < (normalizeOptions ["A".toList, "B".toList]).length ∨
        (∃ o ∈ normalizeOptions ["A".toList, "B".toList],
          100 < o.length)) := by
  decide

/--
C7, amended: the Poll Validator fails if and only if the question is
empty after trim or longer than 200 characters, the normalized option
count is below 2 or above 10, some normalized option exceeds 100
characters, or a supplied scheduled time fails to coerce to a date; in
particular the empty question with options A, B is rejected and the
question Pick one with options A, B is accepted. The check is a pure
function of its arguments and touches no store.
-/
theorem c7_validator :
    (∀ (q : JStr) (opts : List JStr) (d1 d2 : DateField),
      validatePoll q opts d1 d2 = false ↔
        (jsTrim q = [] ∨ 200 < (jsTrim q).length ∨
          (normalizeOptions opts).length < 2 ∨
          10 < (normalizeOptions opts).length ∨
          (∃ o ∈ normalizeOptions opts, 100 < o.length) ∨
          coerceDateField d1 = none ∨ coerceDateField d2 = none)) ∧
    validatePoll [] ["A".toList, "B".toList] .null .null = false ∧
    validatePoll "Pick one".toList ["A".toList, "B".toList] .null .null
      = true := by
  exact ⟨validatePoll_false_iff, by decide, by decide⟩

/--
C8: the Analytics Reducer reports the total vote count, the number of
distinct voting user ids, and for each option its vote count and its
percentage, the count over the total times 100 rounded to the nearest
whole percent, with 0 for every option when there are no votes; counts
3 and 1 yield 75 and 25 with total 4.
-/
theorem c8_analytics :
    (∀ (poll : PollIn) (votes : List VoteIn),
      (processPollAnalytics poll votes).summary.totalVotes = votes.length ∧
      (processPollAnalytics poll votes).summary.uniqueVoters
        = ((votes.map (fun v => v.user_id)).toFinset).card ∧
      (processPollAnalytics poll votes).summary.optionsCount
        = (poll.options.getD []).length ∧
      (processPollAnalytics poll votes).optionResults
        = (poll.options.getD []).enum.map (fun io =>
            ⟨io.2, votes.countP (fun v => v.option_index == (io.1 : ℚ)),
              if votes.length = 0 then 0
              else round
                ((votes.countP (fun v => v.option_index == (io.1 : ℚ)) : ℚ)
                  / votes.length * 100)⟩)) ∧
    ((processPollAnalytics examplePoll exampleVotes).optionResults.map
        (fun r => (r.votes, r.percentage)) = [(3, 75), (1, 25)] ∧
      (processPollAnalytics examplePoll exampleVotes).summary.totalVotes
        = 4) ∧
    (∀ poll : PollIn,
      ∀ r ∈ (processPollAnalytics poll []).optionResults,
        r.percentage = 0) := by
  refine ⟨?_, ⟨?_, rfl⟩, ?_⟩
  · intro poll votes
    refine ⟨rfl, jsSetSize_eq_card _, rfl, ?_⟩
    rw [processPollAnalytics]
    dsimp only
    apply List.map_congr_left
    intro io _
    have hc := countsFold_eq_countP votes (io.1 : ℚ)
    cases hv : votes with
    | nil =>
      rw [hv] at hc
      simp only [hc, List.length_nil, lt_irrefl, if_neg, if_pos rfl]
      simp
    | cons a t =>
      have hlen : 0 < votes.length := by rw [hv]; simp
      have hlen2 : votes.length ≠ 0 := Nat.pos_iff_ne_zero.mp hlen
      rw [← hv]
      rw [if_pos hlen, if_neg hlen2, hc, jsRound, round_eq]
  · norm_num [processPollAnalytics, countsFold, examplePoll, exampleVotes,
      jsRound, List.enum, List.enumFrom, List.foldl, round_eq]
  · intro poll r hr
    rw [processPollAnalytics] at hr
    dsimp only at hr
    obtain ⟨io, _, rfl⟩ := List.mem_map.mp hr
    simp

theorem c8_witness :
    (⟨"A".toList, 0, 0⟩ : OptionResult) ∈
      (processPollAnalytics examplePoll []).optionResults ∧
    (⟨"A".toList, 0, 0⟩ : OptionResult).percentage = 0 :=
  ⟨by decide, c8_analytics.2.2 examplePoll ⟨"A".toList, 0, 0⟩ (by decide)⟩

/--
C9: publish is the only status transition and it is one-way: every
reachable store holds only draft or open polls (so no poll is ever closed
and the closed clauses hold vacuously), no step ever turns a surviving
non-draft poll back into a draft, publish by the owner sets exactly the
matching poll's status to open and changes nothing else, and the four
other operations never change any surviving poll's status.
-/
theorem c9_publish_one_way :
    (∀ st, Reach st → ∀ p ∈ st.polls,
      p.status = draftStatus ∨ p.status = openStatus) ∧
    (∀ st st' : Store, Reach st → Step st st' →
      ∀ p ∈ st.polls, p.status ≠ draftStatus →
      ∀ p' ∈ st'.polls, p'.created_at = p.created_at →
        p'.status ≠ draftStatus) ∧
    (∀ (st : Store) (u pid : JStr), isUuid pid = true →
      (publishPoll st (some u) pid).res = none ∧
      (publishPoll st (some u) pid).store.options = st.options ∧
      (publishPoll st (some u) pid).store.votes = st.votes ∧
      (publishPoll st (some u) pid).store.seq = st.seq ∧
      (publishPoll st (some u) pid).store.polls = st.polls.map (fun p =>
        if p.id = pid ∧ p.user_id = u then
          ⟨p.id, p.user_id, p.question, openStatus, p.scheduled_open_time,
            p.scheduled_close_time, p.created_at⟩
        else p)) ∧
    (∀ st, Reach st →
      ∀ (user : Option JStr) (fd : FormPoll) (pid : JStr) (q : ℚ),
      (∀ p ∈ st.polls, ∀ p' ∈ (createPoll st user fd).store.polls,
        p'.created_at = p.created_at → p'.status = p.status) ∧
      (∀ p ∈ st.polls, ∀ p' ∈ (updatePoll st user pid fd).store.polls,
        p'.created_at = p.created_at → p'.status = p.status) ∧
      (∀ p ∈ st.polls, ∀ p' ∈ (deletePoll st user pid).store.polls,
        p'.created_at = p.created_at → p'.status = p.status) ∧
      (∀ p ∈ st.polls, ∀ p' ∈ (submitVote st user pid q).store.polls,
        p'.created_at = p.created_at → p'.status = p.status)) := by
  refine ⟨?_, ?_, ?_, ?_⟩
  · intro st h
    exact (reach_inv_statusOK st h).2
  · intro st st' hreach hstep p hp hnd p' hp' he
    exact step_no_new_draft (reach_inv_statusOK st hreach).1 hstep
      p hp hnd p' hp' he
  · intro st u pid huuid
    rw [publishPoll_shape st u pid huuid]
    exact ⟨rfl, rfl, rfl, rfl, rfl⟩
  · intro st hreach user fd pid q
    exact non_publish_status_fixed st (reach_inv_statusOK st hreach).1
      user fd pid q

theorem c9_witness :
    (∀ p ∈ initStore.polls,
      p.status = draftStatus ∨ p.status = openStatus) ∧
    (publishPoll stMain (some alice) pidA).store.polls
      = stMain.polls.map (fun p =>
        if p.id = pidA ∧ p.user_id = alice then
          ⟨p.id, p.user_id, p.question, openStatus, p.scheduled_open_time,
            p.scheduled_close_time, p.created_at⟩
        else p) :=
  ⟨c9_publish_one_way.1 initStore Reach.init,
    (c9_publish_one_way.2.2.1 stMain alice pidA (by decide)).2.2.2.2⟩

/--
C10: the Option Normalizer is idempotent: normalizing its own output
returns that output unchanged.
-/
theorem c10_normalizer_idem :
    ∀ xs, normalizeOptions (normalizeOptions xs) = normalizeOptions xs :=
  normalizeOptions_idem

end Polly
